import Mathlib

/-!
Verification development for the CouchDB HTTP client layer of the bais
repository.  The JavaScript sources embedded here are
src/lib/couchdb.js (the CouchClient variant) and src/etc/couchdb.js
(the Connection variant).  JavaScript objects are modelled as ordered
association lists, JavaScript strings as Lean strings, and the
event-driven response decoding as a function from the list of incoming
response events to the list of emitted events.
-/

/-- Decidable equality for Except values, used to evaluate client
constructions on concrete inputs. -/
instance {ε α : Type} [DecidableEq ε] [DecidableEq α] : DecidableEq (Except ε α) := fun a b =>
  match a, b with
  | .ok x, .ok y =>
    if h : x = y then .isTrue (by rw [h]) else .isFalse (fun hc => h (Except.ok.inj hc))
  | .error x, .error y =>
    if h : x = y then .isTrue (by rw [h]) else .isFalse (fun hc => h (Except.error.inj hc))
  | .ok _, .error _ => .isFalse (fun hc => Except.noConfusion hc)
  | .error _, .ok _ => .isFalse (fun hc => Except.noConfusion hc)

namespace JS

/-- First-match association-list lookup, modelling JS property read
access on an object without duplicate keys. -/
def propGet {α : Type} : List (String × α) → String → Option α
  | [], _ => none
  | (k2, v) :: rest, k => if k2 = k then some v else propGet rest k

/-- Property assignment: replaces the value if the key exists,
otherwise appends the new key at the end (JS insertion order). -/
def propSet {α : Type} : List (String × α) → String → α → List (String × α)
  | [], k, v => [(k, v)]
  | (k2, w) :: rest, k, v =>
    if k2 = k then (k2, v) :: rest else (k2, w) :: propSet rest k v

/-- Property deletion, modelling the JS delete operator. -/
def propDel {α : Type} : List (String × α) → String → List (String × α)
  | [], _ => []
  | (k2, w) :: rest, k =>
    if k2 = k then propDel rest k else (k2, w) :: propDel rest k

/-- Embedding of merge from src/lib/couchdb.js lines 465-473: for each
own property of obj, in order, copy it into into only when into does
not already define that key; the (mutated) into is returned.  The
membership test runs against the accumulating object, exactly as the
source reads and writes the same into object. -/
def merge {α : Type} (obj into : List (String × α)) : List (String × α) :=
  obj.foldl (fun acc kv => if (propGet acc kv.1).isSome then acc else acc ++ [kv]) into

/-- UTF-8 encoding of a single code point as a byte list. -/
def charUtf8 (c : Char) : List Nat :=
  let n := c.toNat
  if n < 0x80 then [n]
  else if n < 0x800 then [0xC0 + n / 64, 0x80 + n % 64]
  else if n < 0x10000 then
    [0xE0 + n / 4096, 0x80 + (n / 64) % 64, 0x80 + n % 64]
  else
    [0xF0 + n / 262144, 0x80 + (n / 4096) % 64, 0x80 + (n / 64) % 64, 0x80 + n % 64]

/-- UTF-8 encoding of a string as a byte list. -/
def utf8Bytes (s : String) : List Nat :=
  s.data.foldr (fun c acc => charUtf8 c ++ acc) []

/-- Node Buffer.byteLength of a string: its UTF-8 byte count. -/
def byteLength (s : String) : Nat :=
  (utf8Bytes s).length

/-- Uppercase hexadecimal digit for a value below 16. -/
def hexDigitChar (n : Nat) : Char :=
  if n < 10 then Char.ofNat (48 + n) else Char.ofNat (55 + n)

/-- Characters left unescaped by encodeURIComponent: ASCII
alphanumerics and - _ . ! ~ * ( ) and the apostrophe (code 39). -/
def uriUnreserved (c : Char) : Bool :=
  (c.isAlpha && c.toNat < 128) || c.isDigit || c = '-' || c = '_' || c = '.' ||
    c = '!' || c = '~' || c = '*' || c.toNat = 39 || c = '(' || c = ')'

/-- Embedding of the ECMAScript encodeURIComponent builtin: unreserved
characters pass through, every other character is written as percent
plus two uppercase hex digits for each of its UTF-8 bytes. -/
def encodeURIComponent (s : String) : String :=
  String.mk (s.data.foldr
    (fun c acc =>
      if uriUnreserved c then c :: acc
      else (charUtf8 c).foldr
        (fun b acc2 => '%' :: hexDigitChar (b / 16) :: hexDigitChar (b % 16) :: acc2) acc)
    [])

/-- Base64 alphabet character for a 6-bit value. -/
def base64Char (n : Nat) : Char :=
  if n < 26 then Char.ofNat (65 + n)
  else if n < 52 then Char.ofNat (97 + (n - 26))
  else if n < 62 then Char.ofNat (48 + (n - 52))
  else if n = 62 then '+'
  else '/'

/-- Base64 encoding of a byte list, with padding. -/
def base64Bytes : List Nat → List Char
  | [] => []
  | [a] =>
    [base64Char (a / 4), base64Char ((a % 4) * 16), '=', '=']
  | [a, b] =>
    [base64Char (a / 4), base64Char ((a % 4) * 16 + b / 16),
     base64Char ((b % 16) * 4), '=']
  | a :: b :: d :: rest =>
    base64Char (a / 4) :: base64Char ((a % 4) * 16 + b / 16) ::
      base64Char ((b % 16) * 4 + d / 64) :: base64Char (d % 64) :: base64Bytes rest

/-- Modelled from the spec: the Base64 encoding of a string, as the
phrase base64 of user colon pass in the spec demands.  The source
never computes this value; it calls the JS String toString method with
a base64 argument, which ignores the argument. -/
def base64Encode (s : String) : String :=
  String.mk (base64Bytes (utf8Bytes s))

/-- The JS String toString method takes no parameters; calling it with
a base64 argument, as src/lib/couchdb.js line 106 and
src/etc/couchdb.js line 47 do on plain strings, returns the string
unchanged. -/
def stringToStringBase64 (s : String) : String := s

/-- Helper for replaceFirst: rewrite the first occurrence of a pattern
character in a character list. -/
def replaceFirstAux (pat repl : Char) : List Char → List Char
  | [] => []
  | c :: rest => if c = pat then repl :: rest else c :: replaceFirstAux pat repl rest

/-- Embedding of the JS String replace method with a one-character
string pattern: only the first occurrence is replaced.  The source
only ever calls replace with underscore and space. -/
def replaceFirst (s : String) (pat repl : Char) : String :=
  String.mk (replaceFirstAux pat repl s.data)

end JS

namespace JS

mutual

/-- JSON values as produced by JSON.parse; numbers are kept exactly as
rationals (every JSON numeric literal denotes a rational). -/
inductive JValue where
  | jnull : JValue
  | jbool : Bool → JValue
  | jnum : ℚ → JValue
  | jstr : String → JValue
  | jarr : JArr → JValue
  | jobj : JObj → JValue
deriving DecidableEq

/-- The item list of a JSON array. -/
inductive JArr where
  | nil : JArr
  | cons : JValue → JArr → JArr
deriving DecidableEq

/-- The member list of a JSON object, in source order. -/
inductive JObj where
  | nil : JObj
  | cons : String → JValue → JObj → JObj
deriving DecidableEq

end

/-- JS truthiness of a JSON value: null, false, zero and the empty
string are falsy; arrays and objects are always truthy. -/
def jsTruthy : JValue → Bool
  | .jnull => false
  | .jbool b => b
  | .jnum n => decide (n ≠ 0)
  | .jstr s => decide (s ≠ "")
  | .jarr _ => true
  | .jobj _ => true

/-- Last binding of a key among the members of a JSON object. -/
def jobjFindLast : JObj → String → Option JValue
  | .nil, _ => none
  | .cons k v rest, key =>
    match jobjFindLast rest key with
    | some r => some r
    | none => if k = key then some v else none

/-- Property read on a parsed JSON value; with duplicate keys the last
binding wins, as in JSON.parse. -/
def jGet : JValue → String → Option JValue
  | .jobj fields, k => jobjFindLast fields k
  | _, _ => none

/-- JSON insignificant whitespace. -/
def jsonWs (c : Char) : Bool :=
  c = ' ' || c = '\t' || c = '\n' || c = '\r'

/-- Drop leading JSON whitespace. -/
def skipWs (cs : List Char) : List Char :=
  cs.dropWhile jsonWs

/-- Hexadecimal digit test on characters. -/
def isHexDigitChar (c : Char) : Bool :=
  c.isDigit || ('a' ≤ c && c ≤ 'f') || ('A' ≤ c && c ≤ 'F')

/-- Parse the body of a JSON string literal after the opening quote,
returning the decoded characters and the input after the closing
quote.  Raw control characters are rejected, standard escapes and
four-digit unicode escapes are decoded. -/
def parseStrBody (fuel : Nat) (cs : List Char) : Option (List Char × List Char) :=
  match fuel with
  | 0 => none
  | fuel + 1 =>
    match cs with
    | [] => none
    | c :: rest =>
      if c = '"' then some ([], rest)
      else if c.toNat < 32 then none
      else if c = '\\' then
        match rest with
        | [] => none
        | e :: rest2 =>
          if e = '"' || e = '\\' || e = '/' then
            (parseStrBody fuel rest2).map (fun p => (e :: p.1, p.2))
          else if e = 'b' then
            (parseStrBody fuel rest2).map (fun p => (Char.ofNat 8 :: p.1, p.2))
          else if e = 'f' then
            (parseStrBody fuel rest2).map (fun p => (Char.ofNat 12 :: p.1, p.2))
          else if e = 'n' then
            (parseStrBody fuel rest2).map (fun p => ('\n' :: p.1, p.2))
          else if e = 'r' then
            (parseStrBody fuel rest2).map (fun p => ('\r' :: p.1, p.2))
          else if e = 't' then
            (parseStrBody fuel rest2).map (fun p => ('\t' :: p.1, p.2))
          else if e = 'u' then
            match rest2 with
            | h1 :: h2 :: h3 :: h4 :: rest6 =>
              match isHexDigitChar h1, isHexDigitChar h2, isHexDigitChar h3, isHexDigitChar h4 with
              | true, true, true, true =>
                let v := ((h1.toNat % 32 + 9) % 25) * 4096 + ((h2.toNat % 32 + 9) % 25) * 256 +
                  ((h3.toNat % 32 + 9) % 25) * 16 + ((h4.toNat % 32 + 9) % 25)
                (parseStrBody fuel rest6).map (fun p =>
                  ((if v < 0xD800 || 0xDFFF < v then Char.ofNat v else Char.ofNat 0xFFFD) :: p.1, p.2))
              | _, _, _, _ => none
            | _ => none
          else none
      else (parseStrBody fuel rest).map (fun p => (c :: p.1, p.2))

/-- Numeric value of a digit list read in base 10. -/
def digitsVal (ds : List Char) : Nat :=
  ds.foldl (fun acc c => acc * 10 + (c.toNat - 48)) 0

/-- Parse a JSON number literal: optional minus, integer part with no
leading zeros, optional fraction, optional exponent; the exact
rational value is returned. -/
def parseNum (cs : List Char) : Option (ℚ × List Char) :=
  let (negSign, cs1) :=
    match cs with
    | '-' :: rest => (true, rest)
    | _ => (false, cs)
  let ip := cs1.takeWhile Char.isDigit
  let cs2 := cs1.dropWhile Char.isDigit
  if ip = [] then none
  else if ip.length > 1 && ip.headD '0' = '0' then none
  else
    let (fd, cs3) :=
      match cs2 with
      | '.' :: rest =>
        (rest.takeWhile Char.isDigit, rest.dropWhile Char.isDigit)
      | _ => ([], cs2)
    if cs2 ≠ cs3 && fd = [] then none
    else
      let (hasExp, expNeg, ed, cs4) :=
        match cs3 with
        | e :: rest =>
          if e = 'e' || e = 'E' then
            match rest with
            | '+' :: rest2 => (true, false, rest2.takeWhile Char.isDigit, rest2.dropWhile Char.isDigit)
            | '-' :: rest2 => (true, true, rest2.takeWhile Char.isDigit, rest2.dropWhile Char.isDigit)
            | _ => (true, false, rest.takeWhile Char.isDigit, rest.dropWhile Char.isDigit)
          else (false, false, [], cs3)
        | [] => (false, false, [], cs3)
      if hasExp && ed = [] then none
      else
        let signed : ℤ := if negSign then -(digitsVal (ip ++ fd) : ℤ) else (digitsVal (ip ++ fd) : ℤ)
        let ex : ℤ := (if expNeg then -(digitsVal ed : ℤ) else (digitsVal ed : ℤ))
        let q : ℚ :=
          if fd = [] && ed = [] then (signed : ℚ)
          else ((signed : ℚ) / ((10 : ℚ) ^ fd.length)) * (10 : ℚ) ^ ex
        some (q, cs4)

/-- Check that the input starts with the given characters and return
the remainder. -/
def expectChars : List Char → List Char → Option (List Char)
  | [], cs => some cs
  | p :: ps, c :: cs => if c = p then expectChars ps cs else none
  | _ :: _, [] => none

mutual

/-- Recursive-descent JSON value parse with fuel, covering every JSON
production: literals, numbers, strings, arrays and objects. -/
def parseVal (fuel : Nat) (cs : List Char) : Option (JValue × List Char) :=
  match fuel with
  | 0 => none
  | fuel + 1 =>
    match skipWs cs with
    | [] => none
    | c :: rest =>
      if c = 'n' then
        (expectChars ['u', 'l', 'l'] rest).map (fun r => (JValue.jnull, r))
      else if c = 't' then
        (expectChars ['r', 'u', 'e'] rest).map (fun r => (JValue.jbool true, r))
      else if c = 'f' then
        (expectChars ['a', 'l', 's', 'e'] rest).map (fun r => (JValue.jbool false, r))
      else if c = '"' then
        (parseStrBody (rest.length + 1) rest).map (fun p => (JValue.jstr (String.mk p.1), p.2))
      else if c = '[' then
        match skipWs rest with
        | ']' :: rest2 => some (JValue.jarr .nil, rest2)
        | _ => (parseArrItems fuel rest).map (fun p => (JValue.jarr p.1, p.2))
      else if c = '\x7b' then
        match skipWs rest with
        | '\x7d' :: rest2 => some (JValue.jobj .nil, rest2)
        | _ => (parseObjItems fuel rest).map (fun p => (JValue.jobj p.1, p.2))
      else
        parseNum (c :: rest) |>.map (fun p => (JValue.jnum p.1, p.2))

/-- Parse one or more comma-separated array items up to the closing
bracket. -/
def parseArrItems (fuel : Nat) (cs : List Char) : Option (JArr × List Char) :=
  match fuel with
  | 0 => none
  | fuel + 1 =>
    match parseVal fuel cs with
    | none => none
    | some (v, rest) =>
      match skipWs rest with
      | ',' :: rest2 =>
        (parseArrItems fuel rest2).map (fun p => (JArr.cons v p.1, p.2))
      | ']' :: rest2 => some (JArr.cons v .nil, rest2)
      | _ => none

/-- Parse one or more comma-separated object members up to the closing
brace. -/
def parseObjItems (fuel : Nat) (cs : List Char) : Option (JObj × List Char) :=
  match fuel with
  | 0 => none
  | fuel + 1 =>
    match skipWs cs with
    | '"' :: rest =>
      match parseStrBody (rest.length + 1) rest with
      | none => none
      | some (key, rest2) =>
        match skipWs rest2 with
        | ':' :: rest3 =>
          match parseVal fuel rest3 with
          | none => none
          | some (v, rest4) =>
            match skipWs rest4 with
            | ',' :: rest5 =>
              (parseObjItems fuel rest5).map (fun p => (JObj.cons (String.mk key) v p.1, p.2))
            | '\x7d' :: rest5 => some (JObj.cons (String.mk key) v .nil, rest5)
            | _ => none
        | _ => none
    | _ => none

end

/-- Embedding of JSON.parse: parse a complete JSON text; trailing
content other than whitespace is an error, and the parse of an invalid
text yields none, standing for the thrown SyntaxError. -/
def jsonParse (s : String) : Option JValue :=
  match parseVal (s.length + 1) s.data with
  | none => none
  | some (v, rest) => if skipWs rest = [] then some v else none

/-- Escape one character for a JSON string literal. -/
def jsonEscapeChar (c : Char) : List Char :=
  if c = '"' then ['\\', '"']
  else if c = '\\' then ['\\', '\\']
  else if c = '\n' then ['\\', 'n']
  else if c = '\r' then ['\\', 'r']
  else if c = '\t' then ['\\', 't']
  else if c.toNat = 8 then ['\\', 'b']
  else if c.toNat = 12 then ['\\', 'f']
  else if c.toNat < 32 then
    ['\\', 'u', '0', '0', hexDigitChar (c.toNat / 16), hexDigitChar (c.toNat % 16)]
  else [c]

/-- Render a rational as JSON.stringify renders a number; integral
values print as plain integers, which covers every number the sources
actually serialize. -/
def jsonNumRepr (q : ℚ) : String :=
  if q.den = 1 then toString q.num else toString q.num ++ "/" ++ toString q.den

/-- Rendering of a JSON string literal with its quotes and escapes. -/
def jsonQuote (s : String) : String :=
  String.mk ('"' :: s.data.foldr (fun c acc => jsonEscapeChar c ++ acc) ['"'])

mutual

/-- Embedding of JSON.stringify on a JSON value. -/
def stringifyVal : JValue → String
  | .jnull => "null"
  | .jbool true => "true"
  | .jbool false => "false"
  | .jnum q => jsonNumRepr q
  | .jstr s => jsonQuote s
  | .jarr xs => "[" ++ stringifyItems xs ++ "]"
  | .jobj fs => "\x7b" ++ stringifyFields fs ++ "\x7d"

/-- Comma-joined serialization of array items. -/
def stringifyItems : JArr → String
  | .nil => ""
  | .cons v .nil => stringifyVal v
  | .cons v rest => stringifyVal v ++ "," ++ stringifyItems rest

/-- Comma-joined serialization of object members. -/
def stringifyFields : JObj → String
  | .nil => ""
  | .cons k v .nil => jsonQuote k ++ ":" ++ stringifyVal v
  | .cons k v rest => jsonQuote k ++ ":" ++ stringifyVal v ++ "," ++ stringifyFields rest

end

/-- A JS value appearing in the status-code position: either a number
or a string.  The sources normally pass the numeric statusCode of a
response, but the classifier is also exercised on strings by the test
suite. -/
inductive JStatus where
  | num : ℚ → JStatus
  | str : String → JStatus
deriving DecidableEq, Repr

/-- The result of the JS Number conversion: a finite value, one of the
two infinities, or NaN. -/
inductive JSNum where
  | val : ℚ → JSNum
  | inf : JSNum
  | negInf : JSNum
  | nan : JSNum
deriving DecidableEq, Repr

/-- Characters the JS Number conversion trims from both string ends. -/
def numWs (c : Char) : Bool :=
  c = ' ' || c = '\t' || c = '\n' || c = '\r' || c.toNat = 11 || c.toNat = 12 ||
    c.toNat = 0xA0 || c.toNat = 0xFEFF

/-- Hex digit value, defined on hex-digit characters. -/
def hexVal (c : Char) : Nat :=
  (c.toNat % 32 + 9) % 25

/-- Numeric value of a hex digit list. -/
def hexDigitsVal (ds : List Char) : Nat :=
  ds.foldl (fun acc c => acc * 16 + hexVal c) 0

/-- Decimal part of the ECMAScript string-to-number grammar, after
the optional sign: Infinity, or digits with optional fraction and
exponent; the whole remaining input must be consumed. -/
def strDecimalValue (cs : List Char) : Option ℚ :=
    let ip := cs.takeWhile Char.isDigit
    let cs2 := cs.dropWhile Char.isDigit
    let (fd, cs3) :=
      match cs2 with
      | '.' :: rest => (rest.takeWhile Char.isDigit, rest.dropWhile Char.isDigit)
      | _ => ([], cs2)
    if ip = [] && fd = [] then none
    else
      let (hasExp, expNeg, ed, cs4) :=
        match cs3 with
        | e :: rest =>
          if e = 'e' || e = 'E' then
            match rest with
            | '+' :: r2 => (true, false, r2.takeWhile Char.isDigit, r2.dropWhile Char.isDigit)
            | '-' :: r2 => (true, true, r2.takeWhile Char.isDigit, r2.dropWhile Char.isDigit)
            | _ => (true, false, rest.takeWhile Char.isDigit, rest.dropWhile Char.isDigit)
          else (false, false, [], cs3)
        | [] => (false, false, [], cs3)
      if hasExp && ed = [] then none
      else if cs4 ≠ [] then none
      else
        let ex : ℤ := (if expNeg then -(digitsVal ed : ℤ) else (digitsVal ed : ℤ))
        if fd = [] && ed = [] then some ((digitsVal ip : ℤ) : ℚ)
        else some (((digitsVal (ip ++ fd) : ℤ) : ℚ) / ((10 : ℚ) ^ fd.length) * (10 : ℚ) ^ ex)

/-- Embedding of the ECMAScript ToNumber conversion on strings:
whitespace is trimmed, the empty remainder is zero, a hex literal or a
signed decimal literal (possibly Infinity) is evaluated, and anything
else is NaN. -/
def strToNumber (s : String) : JSNum :=
  let cs := (s.data.dropWhile numWs).reverse.dropWhile numWs |>.reverse
  match cs with
  | [] => .val 0
  | '0' :: x :: rest =>
    if (x = 'x' || x = 'X') then
      if rest ≠ [] && rest.all isHexDigitChar then .val (hexDigitsVal rest : ℚ) else .nan
    else
      match strDecimalValue cs with
      | some q => .val q
      | none => .nan
  | '+' :: rest =>
    if rest = ['I', 'n', 'f', 'i', 'n', 'i', 't', 'y'] then .inf
    else match strDecimalValue rest with
      | some q => .val q
      | none => .nan
  | '-' :: rest =>
    if rest = ['I', 'n', 'f', 'i', 'n', 'i', 't', 'y'] then .negInf
    else match strDecimalValue rest with
      | some q => .val (-q)
      | none => .nan
  | _ =>
    if cs = ['I', 'n', 'f', 'i', 'n', 'i', 't', 'y'] then .inf
    else match strDecimalValue cs with
      | some q => .val q
      | none => .nan

/-- The JS Number builtin applied to a status-code value. -/
def toNumber : JStatus → JSNum
  | .num q => .val q
  | .str s => strToNumber s

/-- UTF-8 decoding of a byte list with fuel, emitting the replacement
character for malformed sequences. -/
def utf8DecodeAux (fuel : Nat) : List Nat → List Char
  | [] => []
  | b :: rest =>
    match fuel with
    | 0 => []
    | fuel + 1 =>
      if b < 0x80 then Char.ofNat b :: utf8DecodeAux fuel rest
      else if 0xC0 ≤ b && b < 0xE0 then
        match rest with
        | b2 :: rest2 =>
          if 0x80 ≤ b2 && b2 < 0xC0 then
            Char.ofNat ((b - 0xC0) * 64 + (b2 - 0x80)) :: utf8DecodeAux fuel rest2
          else Char.ofNat 0xFFFD :: utf8DecodeAux fuel rest
        | [] => [Char.ofNat 0xFFFD]
      else if 0xE0 ≤ b && b < 0xF0 then
        match rest with
        | b2 :: b3 :: rest3 =>
          if 0x80 ≤ b2 && b2 < 0xC0 && 0x80 ≤ b3 && b3 < 0xC0 then
            Char.ofNat ((b - 0xE0) * 4096 + (b2 - 0x80) * 64 + (b3 - 0x80)) ::
              utf8DecodeAux fuel rest3
          else Char.ofNat 0xFFFD :: utf8DecodeAux fuel rest
        | _ => [Char.ofNat 0xFFFD]
      else if 0xF0 ≤ b && b < 0xF8 then
        match rest with
        | b2 :: b3 :: b4 :: rest4 =>
          if 0x80 ≤ b2 && b2 < 0xC0 && 0x80 ≤ b3 && b3 < 0xC0 && 0x80 ≤ b4 && b4 < 0xC0 then
            Char.ofNat ((b - 0xF0) * 262144 + (b2 - 0x80) * 4096 + (b3 - 0x80) * 64 +
              (b4 - 0x80)) :: utf8DecodeAux fuel rest4
          else Char.ofNat 0xFFFD :: utf8DecodeAux fuel rest
        | _ => [Char.ofNat 0xFFFD]
      else Char.ofNat 0xFFFD :: utf8DecodeAux fuel rest

/-- UTF-8 decoding of a byte list. -/
def utf8Decode (bs : List Nat) : List Char :=
  utf8DecodeAux bs.length bs

/-- Consume a maximal leading run of percent-escaped bytes. -/
def pctRun : List Char → List Nat × List Char
  | '%' :: h1 :: h2 :: rest =>
    if isHexDigitChar h1 && isHexDigitChar h2 then
      let (bs, r) := pctRun rest
      ((hexVal h1 * 16 + hexVal h2) :: bs, r)
    else ([], '%' :: h1 :: h2 :: rest)
  | cs => ([], cs)

/-- Percent-decoding of a character list: maximal runs of
percent-escaped bytes are UTF-8 decoded, every other character passes
through unchanged. -/
def percentDecodeAux (fuel : Nat) (cs : List Char) : List Char :=
  match fuel with
  | 0 => cs
  | fuel + 1 =>
    match cs with
    | [] => []
    | '%' :: h1 :: h2 :: rest =>
      if isHexDigitChar h1 && isHexDigitChar h2 then
        let (bs, r) := pctRun ('%' :: h1 :: h2 :: rest)
        utf8Decode bs ++ percentDecodeAux fuel r
      else '%' :: percentDecodeAux fuel (h1 :: h2 :: rest)
    | c :: rest => c :: percentDecodeAux fuel rest

/-- Percent-decoding of a string, as the querystring unescape used by
the Node querystring parser. -/
def percentDecode (s : String) : String :=
  String.mk (percentDecodeAux s.length s.data)

/-- Embedding of Node querystring.stringify on an object of string
values: percent-escape each key and value, join each pair with an
equals sign and the pairs with ampersands. -/
def qsStringify (q : List (String × String)) : String :=
  String.intercalate "&"
    (q.map (fun kv => encodeURIComponent kv.1 ++ "=" ++ encodeURIComponent kv.2))

/-- Split a character list on a separator character. -/
def splitOnChar (sep : Char) : List Char → List (List Char)
  | [] => [[]]
  | c :: rest =>
    if c = sep then [] :: splitOnChar sep rest
    else
      match splitOnChar sep rest with
      | [] => [[c]]
      | part :: parts => (c :: part) :: parts

/-- Embedding of Node querystring.parse: split the text on ampersands,
split each pair at the first equals sign, and percent-decode keys and
values. -/
def qsParse (s : String) : List (String × String) :=
  if s = "" then []
  else
    (splitOnChar '&' s.data).map (fun part =>
      let k := part.takeWhile (fun c => c ≠ '=')
      let v :=
        match part.dropWhile (fun c => c ≠ '=') with
        | _ :: r => r
        | [] => []
      (percentDecode (String.mk k), percentDecode (String.mk v)))

/-- Characters allowed inside a URL scheme. -/
def isSchemeChar (c : Char) : Bool :=
  c.isAlpha || c.isDigit || c = '+' || c = '-' || c = '.'

/-- The fields of Node url.parse that the sources read. -/
structure ParsedUrl where
  protocol : Option String
  auth : Option String
  host : Option String
  hostname : Option String
  port : Option String
  pathname : Option String
  query : Option String
deriving DecidableEq, Repr

/-- Split a character list at the last occurrence of a separator,
returning the parts before and after it when it occurs. -/
def splitLastAt (sep : Char) (cs : List Char) : Option (List Char × List Char) :=
  let r := cs.reverse
  let post := r.takeWhile (fun c => c ≠ sep)
  match r.drop post.length with
  | c :: pre => if c = sep then some (pre.reverse, post.reverse) else none
  | [] => none

/-- Split the path-and-query tail of a URL into the pathname and query
fields; both are absent when the tail is empty, and the query is
everything after the first question mark up to a hash. -/
def splitPathQuery (cs : List Char) : Option String × Option String :=
  let noFrag := cs.takeWhile (fun c => c ≠ '#')
  let pn := noFrag.takeWhile (fun c => c ≠ '?')
  let qy :=
    match noFrag.dropWhile (fun c => c ≠ '?') with
    | _ :: r => some (String.mk r)
    | [] => none
  ((if pn = [] then none else some (String.mk pn)), qy)

/-- Characters that stay inside the authority component of a URL. -/
def authorityChar (c : Char) : Bool :=
  c ≠ '/' && c ≠ '?' && c ≠ '#'

/-- Split a host-and-port character list at a trailing colon-digits
run, as the legacy Node parser does. -/
def splitHostPort (hostport : List Char) : List Char × Option String :=
  let rd := hostport.reverse.takeWhile Char.isDigit
  match hostport.reverse.drop rd.length with
  | ':' :: hn =>
    if rd ≠ [] then (hn.reverse, some (String.mk rd.reverse))
    else (hostport, none)
  | _ => (hostport, none)

/-- Parse the part of a URL after the double slash: authority with
optional credentials and port, then pathname and query. -/
def parseAuthorityAndPath (protocol : Option String) (r2 : List Char) : ParsedUrl :=
  let authority := r2.takeWhile authorityChar
  let after := r2.dropWhile authorityChar
  let (auth, hostport) :=
    match splitLastAt '@' authority with
    | some (a, hp) => (some (String.mk a), hp)
    | none => (none, authority)
  let (hostname, port) := splitHostPort hostport
  let (pathname, query) := splitPathQuery after
  { protocol := protocol
    auth := auth
    host := some (String.mk (hostname.map Char.toLower) ++
      (match port with | some p => ":" ++ p | none => ""))
    hostname := some (String.mk (hostname.map Char.toLower))
    port := port
    pathname := pathname
    query := query }

/-- Embedding of the legacy Node url.parse on the URL shapes the
sources produce and consume: an optional scheme, an optional
double-slash authority holding optional credentials before the last at
sign and an optional trailing numeric port after a colon, then
pathname, query and fragment.  The protocol and hostname are
lowercased as Node does. -/
def parseUrl (s : String) : ParsedUrl :=
  let cs := s.data
  let sch := cs.takeWhile isSchemeChar
  let (protocol, rest) :=
    match cs.dropWhile isSchemeChar with
    | ':' :: r =>
      if sch ≠ [] && (sch.headD ' ').isAlpha then
        (some (String.mk (sch.map Char.toLower ++ [':'])), r)
      else (none, cs)
    | _ => (none, cs)
  match rest with
  | '/' :: '/' :: r2 => parseAuthorityAndPath protocol r2
  | _ =>
    let (pathname, query) := splitPathQuery rest
    { protocol := protocol, auth := none, host := none, hostname := none,
      port := none, pathname := pathname, query := query }

end JS

namespace Couch

open JS

/-- A JS argument value as the credential setter distinguishes them: a
string, a truthy non-string, a falsy non-string, or the missing
argument. -/
inductive JArg where
  | undef : JArg
  | strv : String → JArg
  | otherTruthy : JArg
  | otherFalsy : JArg
deriving DecidableEq, Repr

/-- JS truthiness of an argument value. -/
def argTruthy : JArg → Bool
  | .undef => false
  | .strv s => decide (s ≠ "")
  | .otherTruthy => true
  | .otherFalsy => false

/-- The state of a CouchClient from src/lib/couchdb.js: the protocol
and auth-URL fields together with the default request options object
holding host, port, method, path, headers and query, plus the default
content type set by the constructor. -/
structure Client where
  protocol : String
  host : String
  port : Int
  method : String
  path : String
  headers : List (String × String)
  query : List (String × String)
  authUrl : String
  defaultContentType : String
deriving DecidableEq, Repr

/-- Embedding of CouchClient.prototype.setCredentials, lines 94-117:
a string username is taken whole when it contains a colon and no
truthy password is supplied, or joined with a string password by a
colon; any other combination with a string username throws, as does a
truthy non-string username.  A falsy username clears the header and
the auth-URL.  The stored header value calls the JS String toString
with a base64 argument, which returns the string unchanged. -/
def setCredentials (c : Client) (username password : JArg) : Except String Client :=
  match username with
  | .strv u =>
    if !argTruthy password && u.data.contains ':' then
      .ok { c with
        headers := propSet c.headers "Authentication" ("Basic " ++ stringToStringBase64 u)
        authUrl := u ++ "@" }
    else
      match password with
      | .strv p =>
        .ok { c with
          headers := propSet c.headers "Authentication"
            ("Basic " ++ stringToStringBase64 (u ++ ":" ++ p))
          authUrl := u ++ ":" ++ p ++ "@" }
      | _ => .error "no password"
  | .otherTruthy => .error "username not a string"
  | _ =>
    .ok { c with
      authUrl := ""
      headers :=
        match propGet c.headers "Authentication" with
        | some v => if v ≠ "" then propDel c.headers "Authentication" else c.headers
        | none => c.headers }

/-- Port number of a parsed port string; the URL parser only produces
digit strings here, on which the JS Number conversion is the digit
value. -/
def portNumber (ps : String) : Int :=
  match strToNumber ps with
  | .val q => q.num
  | _ => 0

/-- Embedding of CouchClient.prototype.setUrl, lines 64-83: parse the
URL string (empty when absent), default the protocol to http and the
host to localhost, choose the port from the parsed port, else 80 when
a host was present, else 5984, reset method, path, headers and query,
and finish through setCredentials with the parsed auth. -/
def setUrl (c : Client) (urlString : Option String) : Except String Client :=
  let parsed := parseUrl (urlString.getD "")
  let base : Client :=
    { c with
      protocol := match parsed.protocol with
        | some p => if p = "" then "http:" else p
        | none => "http:"
      host := match parsed.hostname with
        | some h => if h = "" then "localhost" else h
        | none => "localhost"
      port := match parsed.port with
        | some p => if p = "" then (if (parsed.host.getD "") ≠ "" then 80 else 5984) else portNumber p
        | none => if (parsed.host.getD "") ≠ "" then 80 else 5984
      method := "GET"
      path := match parsed.pathname with
        | some p => if p = "" then "/" else p
        | none => "/"
      headers := []
      query := match parsed.query with
        | some q => if q = "" then [] else qsParse q
        | none => [] }
  setCredentials base (match parsed.auth with | some a => .strv a | none => .undef)
    JArg.undef

/-- Embedding of the CouchClient constructor, lines 50-56: set the
default content type and delegate to setUrl. -/
def CouchClient (urlString : Option String) : Except String Client :=
  setUrl
    { protocol := "", host := "", port := 0, method := "", path := "",
      headers := [], query := [], authUrl := "",
      defaultContentType := "application/json;charset=utf-8" }
    urlString

/-- Last character of a string, when the string is not empty. -/
def lastChar (s : String) : Option Char :=
  s.data.getLast?

/-- Embedding of CouchClient.prototype.getPath, lines 133-143: the
stored base path, extended by a truthy optional path with a separating
slash added only when neither side supplies one. -/
def getPath (c : Client) (optPath : Option String) : String :=
  match optPath with
  | some p =>
    if p ≠ "" then
      (if p.data.headD ' ' ≠ '/' && lastChar c.path ≠ some '/'
        then c.path ++ "/" else c.path) ++ p
    else c.path
  | none => c.path

/-- Embedding of CouchClient.prototype.getQuery, lines 150-158, the
returned string: the stored default query, merged under the supplied
query object when one is given, stringified, with a question mark
prefix when non-empty. -/
def getQuery (c : Client) (queryOpts : Option (List (String × String))) : String :=
  let q :=
    match queryOpts with
    | some qo => merge c.query qo
    | none => c.query
  let s := qsStringify q
  if s = "" then s else "?" ++ s

/-- The state of the caller-supplied query object after getQuery
returns: the source merge writes every default key the caller did not
set into the very object the caller passed in. -/
def getQueryMutated (c : Client) (queryOpts : List (String × String)) :
    List (String × String) :=
  merge c.query queryOpts

/-- Embedding of CouchClient.prototype.getUrl, lines 124-127. -/
def getUrl (c : Client) : String :=
  c.protocol ++ "//" ++ c.authUrl ++ c.host ++ ":" ++ toString c.port ++
    getPath c none ++ getQuery c none

/-- The JS Array join method with a separator. -/
def joinWith (sep : String) : List String → String
  | [] => ""
  | [x] => x
  | x :: rest => x ++ sep ++ joinWith sep rest

/-- Embedding of CouchClient.prototype.resource, lines 182-205, on a
list of string segments: percent-encode each segment, join with
slashes after prepending an empty element when the base path lacks a
trailing slash, build the full URL including credentials and query,
and construct a brand-new client from it. -/
def resource (c : Client) (segments : List String) : Except String Client :=
  let p := getPath c none
  let args := segments.map encodeURIComponent
  let args2 := if lastChar p ≠ some '/' then "" :: args else args
  let url := c.protocol ++ "//" ++ c.authUrl ++ c.host ++ ":" ++ toString c.port ++
    p ++ joinWith "/" args2 ++ getQuery c none
  CouchClient (some url)

/-- The transport a dispatched request ends up on. -/
inductive Transport where
  | raw : Transport
  | json : Transport
deriving DecidableEq, Repr

/-- Embedding of the transport choice in
CouchClient.prototype.doRequest at src/lib/couchdb.js lines 289-298:
the JSON decoding transport is used unless the trailing flag is
strictly the boolean true; the method plays no part in the choice. -/
def doRequestTransport (_method : String) (rawFlag : Option Bool) : Transport :=
  if rawFlag = some true then .raw else .json

/-- A request body value as the sources distinguish them: a string, an
array or buffer of a known length, a plain object with its JSON view,
or a streaming emitter carrying its chunks and its JSON view. -/
inductive JSData where
  | strD : String → JSData
  | arrD : Nat → JSData
  | bufD : Nat → JSData
  | objD : JValue → JSData
  | emitterD : List String → JValue → JSData
deriving DecidableEq

/-- JS truthiness of an optional body: absent, empty-string and null
bodies are falsy, all other values here are truthy objects or
non-empty strings. -/
def dataTruthy : Option JSData → Bool
  | none => false
  | some (.strD s) => decide (s ≠ "")
  | some (.objD .jnull) => false
  | some _ => true

/-- Embedding of prepareData, src/lib/couchdb.js lines 500-517:
strings keep their UTF-8 byte length, arrays and buffers their element
length, everything else is serialized to JSON text first; the
Content-Length header is set to that length unless the caller already
supplied one. -/
def prepareData (d : JSData) (headers : List (String × String)) :
    JSData × List (String × String) :=
  let (d2, len) :=
    match d with
    | .strD s => (JSData.strD s, byteLength s)
    | .arrD n => (JSData.arrD n, n)
    | .bufD n => (JSData.bufD n, n)
    | .objD v => (JSData.strD (stringifyVal v), byteLength (stringifyVal v))
    | .emitterD _ v => (JSData.strD (stringifyVal v), byteLength (stringifyVal v))
  (d2,
    if (propGet headers "Content-Length").isSome then headers
    else propSet headers "Content-Length" (toString len))

/-- The written bodies projected to strings, defined when every write
is string data; used to compare write sequences on concrete runs. -/
def strWrites : List JSData → Option (List String)
  | [] => some []
  | .strD s :: rest => (strWrites rest).map (fun l => s :: l)
  | _ => none

/-- The per-call request options object.  Absent fields are absent
properties of the caller-supplied object. -/
structure CallOpts where
  host : Option String := none
  port : Option Int := none
  method : Option String := none
  path : Option String := none
  query : Option (List (String × String)) := none
  headers : Option (List (String × String)) := none

/-- The options argument of request: a path string or an options
object. -/
inductive ReqArg where
  | pathStr : String → ReqArg
  | opts : CallOpts → ReqArg

/-- Normalization of the options argument at lines 374-378: a string
becomes a fresh object holding only the path. -/
def reqArgOpts : ReqArg → CallOpts
  | .pathStr s => { path := some s }
  | .opts o => o

/-- JS default via the or operator on an optional string: an absent or
empty value falls back. -/
def jsOrStr : Option String → String → String
  | some s, d => if s = "" then d else s
  | none, d => d

/-- JS default via the or operator on an optional number: an absent or
zero value falls back. -/
def jsOrInt : Option Int → Int → Int
  | some n, d => if n = 0 then d else n
  | none, d => d

/-- The Content-Type defaulting step of request, lines 388-391: for
POST and PUT an absent Content-Type header is filled with the client
default content type. -/
def ctHeaders (c : Client) (isWrite : Bool) (hs : List (String × String)) :
    List (String × String) :=
  if isWrite then
    if (propGet hs "Content-Type").isSome then hs
    else propSet hs "Content-Type" c.defaultContentType
  else hs

/-- The state of the (shared) header object after the body preparation
step of request, line 394: for a truthy POST or PUT body, prepareData
may add a Content-Length. -/
def finalHeaders (c : Client) (isWrite : Bool) (data : Option JSData)
    (hs0 : List (String × String)) : List (String × String) :=
  let hs := ctHeaders c isWrite hs0
  if isWrite && dataTruthy data then
    match data with
    | some d => (prepareData d hs).2
    | none => hs
  else hs

/-- The body value after the preparation step of request, line 394. -/
def preparedData (c : Client) (isWrite : Bool) (data : Option JSData)
    (hs0 : List (String × String)) : Option JSData :=
  if isWrite && dataTruthy data then
    match data with
    | some d => some (prepareData d (ctHeaders c isWrite hs0)).1
    | none => data
  else data

/-- Embedding of CouchClient.prototype.request, lines 370-413, as a
state transformer on the caller-supplied options object: the first
component of the result is the state of that object after the call
(host, port and method defaulted, path overwritten with the rendered
full path and query string, headers merged over the client defaults,
Content-Type and Content-Length possibly added for POST and PUT, and
the query object extended with fallback keys by getQuery); the second
component lists the body values written to the request handle. -/
def request (c : Client) (arg : ReqArg) (data : Option JSData) :
    CallOpts × List JSData :=
  let o := reqArgOpts arg
  let method := jsOrStr o.method c.method
  let isWrite := method = "POST" || method = "PUT"
  let headers0 := merge c.headers (o.headers.getD [])
  let d2 := preparedData c isWrite data headers0
  let finalOpts : CallOpts :=
    { host := some (jsOrStr o.host c.host)
      port := some (jsOrInt o.port c.port)
      method := some method
      path := some (getPath c o.path ++ getQuery c o.query)
      query := o.query.map (fun qo => merge c.query qo)
      headers := some (finalHeaders c isWrite data headers0) }
  let writes :=
    if dataTruthy d2 && isWrite then
      match d2 with
      | some d => [d]
      | none => []
    else []
  (finalOpts, writes)

/-- Embedding of CouchClient.prototype.doRequest, lines 289-298, as
seen by the caller: the options argument is normalized, its method
property is overwritten with the verb, the transport is selected by
the trailing flag, and both transports pass the same options object
through request. -/
def doRequest (c : Client) (method : String) (arg : ReqArg) (data : Option JSData)
    (rawFlag : Option Bool) : Transport × CallOpts × List JSData :=
  let o := reqArgOpts arg
  let o2 := { o with method := some method }
  (doRequestTransport method rawFlag, request c (.opts o2) data)

/-- An error record as produced by defineError: the numeric code and
the classified name. -/
structure HttpErrorRec where
  code : JSNum
  name : String
deriving DecidableEq, Repr

/-- Embedding of defineError from src/lib/couchdb.js lines 418-440:
the code field is Number of the status code, and the name is chosen by
a switch with strict equality against the fixed table, every other
value falling through to HttpError. -/
def defineError (statusCode : JStatus) : HttpErrorRec :=
  { code := toNumber statusCode
    name :=
      if statusCode = .num 400 then "BadRequest"
      else if statusCode = .num 401 then "Unauthorized"
      else if statusCode = .num 403 then "Forbidden"
      else if statusCode = .num 404 then "NotFound"
      else if statusCode = .num 406 then "NotAcceptable"
      else if statusCode = .num 409 then "Conflict"
      else if statusCode = .num 412 then "PreconditionFailed"
      else if statusCode = .num 415 then "BadContentType"
      else if statusCode = .num 416 then "RangeNotSatisfiable"
      else if statusCode = .num 417 then "ExpectationFailed"
      else if statusCode = .num 500 then "ServerError"
      else "HttpError" }

/-- A complete error record as produced by makeError. -/
structure CouchError where
  code : JSNum
  name : String
  message : String
deriving DecidableEq, Repr

/-- Embedding of makeError from src/lib/couchdb.js lines 443-462 for a
string body: classify the code, parse the body as JSON, and build the
message.  A parse failure keeps the raw body as message.  When the
parsed value and its error field are truthy, the message is the error
text with its first underscore replaced by a space, a colon, and the
reason treated the same way, or the literal no reason when the reason
field is falsy or absent.  The JS replace method throws on a truthy
non-string field; that exceptional outcome is modelled as none. -/
def makeError (code : JStatus) (body : String) : Option CouchError :=
  let e := defineError code
  match jsonParse body with
  | none => some { code := e.code, name := e.name, message := body }
  | some json =>
    if jsTruthy json then
      match jGet json "error" with
      | some errv =>
        if jsTruthy errv then
          match errv with
          | .jstr es =>
            let base := replaceFirst es '_' ' '
            match jGet json "reason" with
            | some rv =>
              if jsTruthy rv then
                match rv with
                | .jstr rs =>
                  some { code := e.code, name := e.name,
                         message := base ++ ": " ++ replaceFirst rs '_' ' ' }
                | _ => none
              else
                some { code := e.code, name := e.name, message := base ++ ": no reason" }
            | none =>
              some { code := e.code, name := e.name, message := base ++ ": no reason" }
          | _ => none
        else some { code := e.code, name := e.name, message := body }
      | none => some { code := e.code, name := e.name, message := body }
    else some { code := e.code, name := e.name, message := body }

/-- An event arriving on the underlying HTTP response: a data
fragment, the end of the stream, or a transport-level close carrying
an opaque error payload identified by a tag. -/
inductive RespEvent where
  | dataEv : String → RespEvent
  | endEv : RespEvent
  | closeEv : Nat → RespEvent
deriving DecidableEq

/-- The payload of an emitted close event: the SyntaxError of a failed
body parse, a classified HTTP error record, or a forwarded
transport-level payload. -/
inductive ClosePayload where
  | syntaxErr : ClosePayload
  | httpErr : CouchError → ClosePayload
  | transportErr : Nat → ClosePayload
deriving DecidableEq

/-- An event emitted by the JSON response decoder. -/
inductive Emit where
  | chunkE : JValue → Emit
  | dataE : JValue → Emit
  | endE : Emit
  | bodyE : String → Emit
  | closeE : ClosePayload → Emit
deriving DecidableEq

/-- Decoder state: the buffered fragments and whether the end handler
already ran (after which the buffer variable holds a string, so a
further fragment push would throw). -/
structure DecState where
  buf : List String
  ended : Bool

/-- Embedding of one event handler of requestJson, src/lib/couchdb.js
lines 327-354.  A data fragment is pushed when truthy and additionally
parsed alone, emitting a chunk event only when that speculative parse
succeeds.  The end handler joins the buffer and branches on the status
code: below 400 a parsed body emits data then end, an unparsable body
emits the raw body then a close with the SyntaxError; at 400 and above
makeError builds the record for a single close.  A transport close is
forwarded unconditionally.  The value none models a thrown exception
inside a handler (a fragment or second end after the buffer became a
string, or makeError throwing on a truthy non-string error field). -/
def decodeStep (status : ℚ) (st : DecState) : RespEvent → Option (DecState × List Emit)
  | .dataEv chunk =>
    if st.ended then none
    else
      let buf2 := if chunk ≠ "" then st.buf ++ [chunk] else st.buf
      let emits :=
        match jsonParse chunk with
        | some v => [Emit.chunkE v]
        | none => []
      some ({ buf := buf2, ended := false }, emits)
  | .endEv =>
    if st.ended then none
    else
      let body := String.join st.buf
      if status < 400 then
        match jsonParse body with
        | some v => some ({ buf := st.buf, ended := true }, [Emit.dataE v, Emit.endE])
        | none =>
          some ({ buf := st.buf, ended := true },
            [Emit.bodyE body, Emit.closeE ClosePayload.syntaxErr])
      else
        match makeError (.num status) body with
        | some e => some ({ buf := st.buf, ended := true }, [Emit.closeE (ClosePayload.httpErr e)])
        | none => none
  | .closeEv tag => some (st, [Emit.closeE (ClosePayload.transportErr tag)])

/-- Run the decoder handlers over a list of incoming response events,
collecting everything emitted; the boolean records whether a handler
threw, cutting the run short. -/
def decodeRunAux (status : ℚ) (st : DecState) : List RespEvent → List Emit × Bool
  | [] => ([], false)
  | ev :: rest =>
    match decodeStep status st ev with
    | none => ([], true)
    | some (st2, out) =>
      let (tail, thrown) := decodeRunAux status st2 rest
      (out ++ tail, thrown)

/-- The full event sequence delivered by the emitter that requestJson
hands to the callback, for a response with the given status code and
incoming event sequence. -/
def requestJsonEvents (status : ℚ) (evs : List RespEvent) : List Emit × Bool :=
  decodeRunAux status { buf := [], ended := false } evs

/-- Whether an emitted event is terminal in the sense of the spec: an
end or a close of any payload. -/
def isTerminal : Emit → Bool
  | .endE => true
  | .closeE _ => true
  | _ => false

/-- The chunk events emitted during the fragment phase: one per
fragment whose speculative standalone parse succeeds. -/
def chunkEvents (frags : List String) : List Emit :=
  frags.filterMap (fun f => (jsonParse f).map Emit.chunkE)

/-- The invariant the specification claims of an emitted event
sequence: exactly one terminal event, and no event of any kind after
it, expressed as the terminal count being one with the last event
terminal. -/
def singleTerminal (out : List Emit) : Prop :=
  out.countP (fun e => isTerminal e) = 1 ∧
    ∃ e, out.getLast? = some e ∧ isTerminal e = true

/-- The client produced by the zero-argument constructor, written out
as a literal. -/
def defaultClient : Client :=
  { protocol := "http:", host := "localhost", port := 5984, method := "GET",
    path := "/", headers := [], query := [], authUrl := "",
    defaultContentType := "application/json;charset=utf-8" }

/-- A default client whose base path is the example path of the
specification. -/
def exampleBaseClient : Client :=
  { defaultClient with path := "/base" }

/-- A character that may appear in the host of a well-formed client:
a lowercase ASCII letter, a digit, a dot or a hyphen, all of which
survive URL parsing and lowercasing. -/
def hostChar (c : Char) : Bool :=
  (97 ≤ c.toNat && c.toNat ≤ 122) || (48 ≤ c.toNat && c.toNat ≤ 57) ||
    c.toNat = 46 || c.toNat = 45

/-- Wellformedness of a client reachable through the public API from a
conventional connection URL: a lowercase http or https protocol, a
plain non-empty host, the GET default method, a slash-leading path
free of query and fragment delimiters, a non-negative port whose
decimal rendering converts back to it, a default query that
round-trips through the query-string encoding and renders without a
fragment delimiter, the default content type, and credentials that are
either absent or stored simultaneously in the auth-URL and in the
Authentication header in the canonical form. -/
def wellFormed (c : Client) : Prop :=
  (c.protocol = "http:" ∨ c.protocol = "https:") ∧
  c.method = "GET" ∧
  c.defaultContentType = "application/json;charset=utf-8" ∧
  c.host ≠ "" ∧
  c.host.data.all hostChar = true ∧
  c.path.data.headD ' ' = '/' ∧
  c.path.data.all (fun ch => ch ≠ '?' && ch ≠ '#') = true ∧
  0 ≤ c.port ∧
  (toString c.port).data ≠ [] ∧
  (toString c.port).data.all Char.isDigit = true ∧
  portNumber (toString c.port) = c.port ∧
  qsParse (qsStringify c.query) = c.query ∧
  (qsStringify c.query).data.all (fun ch => ch ≠ '#') = true ∧
  ((c.authUrl = "" ∧ c.headers = []) ∨
    (∃ a : String, c.authUrl = a ++ "@" ∧ a.data.contains ':' = true ∧
      a.data.all (fun ch => ch ≠ '@' && ch ≠ '/' && ch ≠ '?' && ch ≠ '#') = true ∧
      c.headers = [("Authentication", "Basic " ++ a)]))

end Couch

namespace Conn

open JS

/-- Embedding of the transport choice of Connection.prototype.
doRequest in src/etc/couchdb.js, lines 271-291, after the optional
arguments have been normalized so that raw holds a boolean: a falsy
raw flag is forced to true for HEAD requests, and the raw transport is
used exactly when the resulting flag is true. -/
def doRequestTransport (method : String) (raw : Bool) : Couch.Transport :=
  let raw2 := if !raw && method = "HEAD" then true else raw
  if raw2 then .raw else .json

/-- A request body as Connection.prototype.requestRaw distinguishes
them: a streaming emitter with its chunks, or any other value with its
JSON view. -/
inductive ConnData where
  | emitterB : List String → ConnData
  | plainB : JValue → ConnData
deriving DecidableEq

/-- Truthy header presence, as the etc variant tests headers with the
bang operator rather than typeof. -/
def truthyProp (hs : List (String × String)) (k : String) : Bool :=
  match propGet hs k with
  | some v => decide (v ≠ "")
  | none => false

/-- The observable outcome of Connection.prototype.requestRaw, lines
330-416, restricted to header assembly and body transmission: the
final header object, the chunk sequence written to the request handle,
and whether end was called on it. -/
structure RawOutcome where
  headers : List (String × String)
  writes : List String
  ended : Bool
deriving DecidableEq, Repr

/-- Embedding of the header assembly and body transmission of
Connection.prototype.requestRaw, lines 336-357 and 404-415: the stored
Basic auth value fills an absent Authorization header; a truthy body
gets the default Content-Type when none is set, then a streaming body
sets Transfer-Encoding chunked and is forwarded chunk by chunk with
end called on the emitter end event, while any other body is
serialized to JSON text, measured into Content-Length, written once
and ended. -/
def requestRaw (auth : Option String) (headers : List (String × String))
    (data : Option ConnData) : RawOutcome :=
  let h1 :=
    match auth with
    | some a =>
      if a ≠ "" && !truthyProp headers "Authorization" then
        propSet headers "Authorization" a
      else headers
    | none => headers
  match data with
  | none => { headers := h1, writes := [], ended := true }
  | some d =>
    let h2 := if truthyProp h1 "Content-Type" then h1
      else propSet h1 "Content-Type" "application/json;charset=utf-8"
    match d with
    | .emitterB chunks =>
      { headers := propSet h2 "Transfer-Encoding" "chunked",
        writes := chunks, ended := true }
    | .plainB v =>
      let s := stringifyVal v
      { headers := propSet h2 "Content-Length" (toString (byteLength s)),
        writes := [s], ended := true }

end Conn

namespace Couch

/-- The default literal indeed equals the constructed default
client. -/
theorem defaultClient_eq : CouchClient none = .ok defaultClient := rfl

/-- The base-path example client is the client constructed from the
corresponding URL. -/
theorem exampleBaseClient_eq :
    CouchClient (some "http://localhost:5984/base") = .ok exampleBaseClient := by decide

end Couch

namespace JS

/-- Lookup on an appended association list: the left part wins when it
holds the key. -/
theorem propGet_append {α : Type} (xs ys : List (String × α)) (k : String) :
    propGet (xs ++ ys) k =
      (match propGet xs k with
       | some v => some v
       | none => propGet ys k) := by
  induction xs with
  | nil => simp [propGet]
  | cons kv rest ih =>
    obtain ⟨k2, v⟩ := kv
    by_cases h : k2 = k <;> simp [propGet, h, ih]

/-- A key already present in the target object keeps its value across
merge: the source only copies keys the target lacks. -/
theorem merge_keeps {α : Type} (obj into : List (String × α)) (k : String) (v : α)
    (h : propGet into k = some v) : propGet (merge obj into) k = some v := by
  unfold merge
  induction obj generalizing into with
  | nil => simpa using h
  | cons kv rest ih =>
    simp only [List.foldl_cons]
    by_cases hk : (propGet into kv.1).isSome
    · rw [if_pos hk]
      exact ih into h
    · rw [if_neg hk]
      apply ih
      rw [propGet_append, h]

/-- A key absent from the target object is filled from the source by
merge, first occurrence winning. -/
theorem merge_fallback {α : Type} (obj into : List (String × α)) (k : String)
    (h : propGet into k = none) : propGet (merge obj into) k = propGet obj k := by
  unfold merge
  induction obj generalizing into with
  | nil => simpa using h
  | cons kv rest ih =>
    obtain ⟨k1, v1⟩ := kv
    simp only [List.foldl_cons]
    by_cases hk1 : k1 = k
    · subst hk1
      rw [if_neg (by simp [h])]
      have hfound : propGet (into ++ [(k1, v1)]) k1 = some v1 := by
        rw [propGet_append, h]
        simp [propGet]
      have := merge_keeps rest (into ++ [(k1, v1)]) k1 v1 hfound
      unfold merge at this
      rw [this]
      simp [propGet]
    · have hstep : ∀ acc2 : List (String × α), propGet acc2 k = none →
          propGet (List.foldl
            (fun acc kv => if (propGet acc kv.1).isSome then acc else acc ++ [kv]) acc2 rest) k =
            propGet rest k := fun acc2 hacc => ih acc2 hacc
      by_cases hmem : (propGet into k1).isSome
      · rw [if_pos hmem, hstep into h]
        simp [propGet, hk1]
      · rw [if_neg hmem]
        rw [hstep (into ++ [(k1, v1)]) (by rw [propGet_append, h]; simp [propGet, hk1])]
        simp [propGet, hk1]

/-- Reading back the key just set. -/
theorem propGet_propSet_self {α : Type} (hs : List (String × α)) (k : String) (v : α) :
    propGet (propSet hs k v) k = some v := by
  induction hs with
  | nil => simp [propSet, propGet]
  | cons kv rest ih =>
    obtain ⟨k2, w⟩ := kv
    by_cases h : k2 = k <;> simp [propSet, propGet, h, ih]

/-- Setting one key leaves every other key unchanged. -/
theorem propGet_propSet_ne {α : Type} (hs : List (String × α)) (k k2 : String) (v : α)
    (h : k2 ≠ k) : propGet (propSet hs k v) k2 = propGet hs k2 := by
  induction hs with
  | nil => simp [propSet, propGet, Ne.symm h]
  | cons kv rest ih =>
    obtain ⟨k3, w⟩ := kv
    by_cases h3 : k3 = k
    · subst h3
      simp [propSet, propGet, Ne.symm h]
    · simp [propSet, propGet, h3, ih]

end JS

/-- C2, counterexample: in the CouchClient dispatcher a HEAD call with
the raw flag false or absent selects the JSON transport, not the raw
one, contradicting the claim that HEAD always uses the raw
transport. -/
theorem C2_head_counterexample :
    Couch.doRequestTransport "HEAD" (some false) = Couch.Transport.json ∧
    Couch.doRequestTransport "HEAD" none = Couch.Transport.json ∧
    Couch.Transport.json ≠ Couch.Transport.raw ∧
    (Couch.doRequest Couch.defaultClient "HEAD" (.pathStr "/db") none (some false)).1 =
      Couch.Transport.json :=
  ⟨rfl, rfl, by decide, rfl⟩

/-- C2, amended: only the Connection variant of the dispatcher forces
the raw transport for HEAD regardless of the requested mode; the
CouchClient dispatcher selects the raw transport exactly when the
trailing flag is strictly the boolean true, for HEAD like for every
other verb. -/
theorem C2_head_transport_choice :
    (∀ b : Bool, Conn.doRequestTransport "HEAD" b = Couch.Transport.raw) ∧
    (∀ (m : String) (f : Option Bool),
        Couch.doRequestTransport m f = Couch.Transport.raw ↔ f = some true) := by
  constructor
  · intro b
    cases b <;> rfl
  · intro m f
    by_cases h : f = some true <;> simp [Couch.doRequestTransport, h]

/-- C3: the credential setter stores the header value Basic user:pass
and the auth prefix user:pass@, for both call forms; the value is not
the Basic plus Base64 encoding the claim describes, because the JS
String toString method ignores its base64 argument. -/
theorem C3_credentials_not_base64 :
    ((Couch.CouchClient none).bind
        (fun c => Couch.setCredentials c (.strv "user") (.strv "pass"))).map
        (fun c => (JS.propGet c.headers "Authentication", c.authUrl)) =
      Except.ok (some "Basic user:pass", "user:pass@") ∧
    ((Couch.CouchClient none).bind
        (fun c => Couch.setCredentials c (.strv "user:pass") .undef)).map
        (fun c => (JS.propGet c.headers "Authentication", c.authUrl)) =
      Except.ok (some "Basic user:pass", "user:pass@") ∧
    JS.base64Encode "user:pass" = "dXNlcjpwYXNz" ∧
    ("Basic user:pass" : String) ≠ "Basic " ++ JS.base64Encode "user:pass" :=
  ⟨rfl, rfl, rfl, by decide⟩

/-- C4: the classifier maps each tabled numeric status code to exactly
its documented name, every other numeric code to HttpError, always
preserving the code, and a status code whose number conversion is NaN
to HttpError with the NaN sentinel as code. -/
theorem C4_defineError_classification :
    (Couch.defineError (.num 400) = ⟨.val 400, "BadRequest"⟩ ∧
     Couch.defineError (.num 401) = ⟨.val 401, "Unauthorized"⟩ ∧
     Couch.defineError (.num 403) = ⟨.val 403, "Forbidden"⟩ ∧
     Couch.defineError (.num 404) = ⟨.val 404, "NotFound"⟩ ∧
     Couch.defineError (.num 406) = ⟨.val 406, "NotAcceptable"⟩ ∧
     Couch.defineError (.num 409) = ⟨.val 409, "Conflict"⟩ ∧
     Couch.defineError (.num 412) = ⟨.val 412, "PreconditionFailed"⟩ ∧
     Couch.defineError (.num 415) = ⟨.val 415, "BadContentType"⟩ ∧
     Couch.defineError (.num 416) = ⟨.val 416, "RangeNotSatisfiable"⟩ ∧
     Couch.defineError (.num 417) = ⟨.val 417, "ExpectationFailed"⟩ ∧
     Couch.defineError (.num 500) = ⟨.val 500, "ServerError"⟩) ∧
    (∀ q : ℚ,
       q ∉ ([400, 401, 403, 404, 406, 409, 412, 415, 416, 417, 500] : List ℚ) →
       Couch.defineError (.num q) = ⟨.val q, "HttpError"⟩) ∧
    (∀ s : String, JS.strToNumber s = .nan →
       Couch.defineError (.str s) = ⟨.nan, "HttpError"⟩) := by
  refine ⟨by decide, ?_, ?_⟩
  · intro q h
    simp only [List.mem_cons, List.not_mem_nil, or_false, not_or] at h
    obtain ⟨h1, h2, h3, h4, h5, h6, h7, h8, h9, h10, h11⟩ := h
    simp [Couch.defineError, JS.toNumber, JS.JStatus.num.injEq, h1, h2, h3, h4, h5, h6,
      h7, h8, h9, h10, h11]
  · intro s h
    simp [Couch.defineError, JS.toNumber, h]

/-- C4, witness: the general branches evaluated at status code 777 and
at a non-numeric status string. -/
theorem C4_defineError_classification_witness :
    Couch.defineError (.num 777) = ⟨.val 777, "HttpError"⟩ ∧
    Couch.defineError (.str "not a number") = ⟨.nan, "HttpError"⟩ :=
  ⟨C4_defineError_classification.2.1 777 (by decide),
   C4_defineError_classification.2.2 "not a number" (by decide)⟩

/-- C5, counterexample: the JS replace call rewrites only the first
underscore of the error and reason fields, so a field with two
underscores keeps the second one, while the claim demands every
underscore replaced. -/
theorem C5_underscore_counterexample :
    Couch.makeError (.num 500)
        "\x7b\"error\":\"try_again_later\",\"reason\":\"too_much_load\"\x7d" =
      some { code := .val 500, name := "ServerError",
             message := "try again_later: too much_load" } ∧
    ("try again_later: too much_load" : String) ≠ "try again later: too much load" :=
  ⟨rfl, by decide⟩

/-- C5, amended: the message of a constructed error record is the raw
body when the body does not parse as JSON; when it parses to a truthy
value with a truthy string error field, it is the error text with its
first underscore replaced by a space, a colon and space, and the
reason treated the same way, or the literal no reason when the reason
field is absent; the 404 example of the claim holds as stated since
those fields hold a single underscore or none. -/
theorem C5_makeError_message :
    (∀ (q : ℚ) (body : String), JS.jsonParse body = none →
        Couch.makeError (.num q) body =
          some { code := .val q, name := (Couch.defineError (.num q)).name,
                 message := body }) ∧
    (∀ (q : ℚ) (body es rs : String) (v : JS.JValue),
        JS.jsonParse body = some v → JS.jsTruthy v = true →
        JS.jGet v "error" = some (.jstr es) → es ≠ "" →
        JS.jGet v "reason" = some (.jstr rs) → rs ≠ "" →
        Couch.makeError (.num q) body =
          some { code := .val q, name := (Couch.defineError (.num q)).name,
                 message := JS.replaceFirst es '_' ' ' ++ ": " ++
                   JS.replaceFirst rs '_' ' ' }) ∧
    (∀ (q : ℚ) (body es : String) (v : JS.JValue),
        JS.jsonParse body = some v → JS.jsTruthy v = true →
        JS.jGet v "error" = some (.jstr es) → es ≠ "" →
        JS.jGet v "reason" = none →
        Couch.makeError (.num q) body =
          some { code := .val q, name := (Couch.defineError (.num q)).name,
                 message := JS.replaceFirst es '_' ' ' ++ ": no reason" }) ∧
    (Couch.makeError (.num 404) "\x7b\"error\":\"not_found\",\"reason\":\"missing\"\x7d" =
      some { code := .val 404, name := "NotFound", message := "not found: missing" }) := by
  refine ⟨?_, ?_, ?_, rfl⟩
  · intro q body h
    simp [Couch.makeError, h, Couch.defineError, JS.toNumber]
  · intro q body es rs v hparse htruthy herr hes hreason hrs
    have hes2 : JS.jsTruthy (.jstr es) = true := by simp [JS.jsTruthy, hes]
    have hrs2 : JS.jsTruthy (.jstr rs) = true := by simp [JS.jsTruthy, hrs]
    simp [Couch.makeError, hparse, htruthy, herr, hreason, hes2, hrs2,
      Couch.defineError, JS.toNumber]
  · intro q body es v hparse htruthy herr hes hreason
    have hes2 : JS.jsTruthy (.jstr es) = true := by simp [JS.jsTruthy, hes]
    simp [Couch.makeError, hparse, htruthy, herr, hreason, hes2,
      Couch.defineError, JS.toNumber]

/-- C7: when getQuery receives an extra query object, keys of that
object take precedence over the stored default query, the default
values act only as fallback for keys missing from the extra object,
and the URL-encoded result is prefixed with a question mark exactly
when the merged query stringifies to a non-empty text; the override
example of the specification evaluates to ?PARAM=VALUE. -/
theorem C7_getQuery_override :
    (∀ (c : Couch.Client) (extra : List (String × String)) (k v : String),
        JS.propGet extra k = some v →
        JS.propGet (JS.merge c.query extra) k = some v) ∧
    (∀ (c : Couch.Client) (extra : List (String × String)) (k : String),
        JS.propGet extra k = none →
        JS.propGet (JS.merge c.query extra) k = JS.propGet c.query k) ∧
    (∀ (c : Couch.Client) (extra : List (String × String)),
        (JS.qsStringify (JS.merge c.query extra) = "" →
          Couch.getQuery c (some extra) = "") ∧
        (JS.qsStringify (JS.merge c.query extra) ≠ "" →
          Couch.getQuery c (some extra) =
            "?" ++ JS.qsStringify (JS.merge c.query extra))) ∧
    (Couch.getQuery { Couch.defaultClient with query := [("PARAM", "ORIGINAL")] }
        (some [("PARAM", "VALUE")]) = "?PARAM=VALUE") := by
  refine ⟨?_, ?_, ?_, rfl⟩
  · intro c extra k v h
    exact JS.merge_keeps c.query extra k v h
  · intro c extra k h
    exact JS.merge_fallback c.query extra k h
  · intro c extra
    constructor
    · intro h
      simp [Couch.getQuery, h]
    · intro h
      simp [Couch.getQuery, h]

/-- C7, witness: the three quantified parts applied to the PARAM
override example. -/
theorem C7_getQuery_override_witness :
    JS.propGet
        (JS.merge ({ Couch.defaultClient with query := [("PARAM", "ORIGINAL")] }).query
          [("PARAM", "VALUE")]) "PARAM" = some "VALUE" ∧
    JS.propGet
        (JS.merge ({ Couch.defaultClient with query := [("PARAM", "ORIGINAL")] }).query
          [("OTHER", "X")]) "PARAM" =
      JS.propGet ({ Couch.defaultClient with query := [("PARAM", "ORIGINAL")] }).query
        "PARAM" ∧
    Couch.getQuery { Couch.defaultClient with query := [("PARAM", "ORIGINAL")] }
        (some [("PARAM", "VALUE")]) =
      "?" ++ JS.qsStringify
        (JS.merge ({ Couch.defaultClient with query := [("PARAM", "ORIGINAL")] }).query
          [("PARAM", "VALUE")]) :=
  ⟨C7_getQuery_override.1 _ [("PARAM", "VALUE")] "PARAM" "VALUE" rfl,
   C7_getQuery_override.2.1 _ [("OTHER", "X")] "PARAM" rfl,
   (C7_getQuery_override.2.2.1 _ [("PARAM", "VALUE")]).2 (by decide)⟩

/-- C9, counterexample: in the CouchClient raw transport a POST whose
body is a streaming emitter is not forwarded chunk by chunk; it is
serialized to JSON text by prepareData, a Content-Length header is
computed, no Transfer-Encoding header is set, and a single write of
the serialized text is issued. -/
theorem C9_streaming_counterexample :
    (Couch.request Couch.defaultClient (.opts { method := some "POST" })
        (some (.emitterD ["c1", "c2"] (JS.JValue.jobj .nil)))).1.headers =
      some [("Content-Type", "application/json;charset=utf-8"),
            ("Content-Length", "2")] ∧
    Couch.strWrites (Couch.request Couch.defaultClient (.opts { method := some "POST" })
        (some (.emitterD ["c1", "c2"] (JS.JValue.jobj .nil)))).2 =
      some ["\x7b\x7d"] := by
  exact ⟨by decide, by decide⟩

/-- C9, amended: only the Connection raw transport streams a body
that exposes the push-style emitter interface: the chunks are
forwarded one by one to the request handle, end is called after them,
the Transfer-Encoding chunked header is set, and no Content-Length is
computed; the CouchClient transport instead serializes such a body to
JSON text with a Content-Length. -/
theorem C9_connection_streams_emitter :
    ∀ (auth : Option String) (hs : List (String × String)) (chunks : List String),
      (Conn.requestRaw auth hs (some (.emitterB chunks))).writes = chunks ∧
      (Conn.requestRaw auth hs (some (.emitterB chunks))).ended = true ∧
      JS.propGet (Conn.requestRaw auth hs (some (.emitterB chunks))).headers
        "Transfer-Encoding" = some "chunked" ∧
      (JS.propGet hs "Content-Length" = none →
        JS.propGet (Conn.requestRaw auth hs (some (.emitterB chunks))).headers
          "Content-Length" = none) := by
  intro auth hs chunks
  obtain ⟨h2, hdef, hcl2⟩ : ∃ h2 : List (String × String),
      Conn.requestRaw auth hs (some (.emitterB chunks)) =
        { headers := JS.propSet h2 "Transfer-Encoding" "chunked",
          writes := chunks, ended := true } ∧
      (JS.propGet hs "Content-Length" = none →
        JS.propGet h2 "Content-Length" = none) := by
    have ctStep : ∀ h1 : List (String × String),
        JS.propGet h1 "Content-Length" = none →
        JS.propGet (if Conn.truthyProp h1 "Content-Type" then h1
          else JS.propSet h1 "Content-Type" "application/json;charset=utf-8")
          "Content-Length" = none := by
      intro h1 hcl
      by_cases hct : Conn.truthyProp h1 "Content-Type"
      · simpa [hct] using hcl
      · rw [if_neg (by simpa using hct),
          JS.propGet_propSet_ne _ "Content-Type" "Content-Length" _ (by decide)]
        exact hcl
    cases auth with
    | none =>
      refine ⟨_, rfl, ?_⟩
      intro hcl
      exact ctStep hs hcl
    | some a =>
      by_cases hc : a ≠ "" ∧ Conn.truthyProp hs "Authorization" = false
      · refine ⟨if Conn.truthyProp (JS.propSet hs "Authorization" a) "Content-Type" then
            JS.propSet hs "Authorization" a
          else JS.propSet (JS.propSet hs "Authorization" a) "Content-Type"
            "application/json;charset=utf-8", ?_, ?_⟩
        · simp [Conn.requestRaw, hc]
        · intro hcl
          refine ctStep _ ?_
          rw [JS.propGet_propSet_ne hs "Authorization" "Content-Length" a (by decide)]
          exact hcl
      · refine ⟨if Conn.truthyProp hs "Content-Type" then hs
          else JS.propSet hs "Content-Type" "application/json;charset=utf-8", ?_, ?_⟩
        · simp [Conn.requestRaw, hc]
        · intro hcl
          exact ctStep hs hcl
  rw [hdef]
  refine ⟨rfl, rfl, JS.propGet_propSet_self _ _ _, ?_⟩
  intro hcl
  rw [JS.propGet_propSet_ne _ "Transfer-Encoding" "Content-Length" _ (by decide)]
  exact hcl2 hcl

/-- C9, witness: the Connection streaming branch evaluated on a
two-chunk emitter body with stored credentials and empty caller
headers. -/
theorem C9_connection_streams_emitter_witness :
    (Conn.requestRaw (some "Basic u:p") [] (some (.emitterB ["c1", "c2"]))).writes =
      ["c1", "c2"] ∧
    (Conn.requestRaw (some "Basic u:p") [] (some (.emitterB ["c1", "c2"]))).ended = true ∧
    JS.propGet (Conn.requestRaw (some "Basic u:p") [] (some (.emitterB ["c1", "c2"]))).headers
      "Transfer-Encoding" = some "chunked" ∧
    JS.propGet (Conn.requestRaw (some "Basic u:p") [] (some (.emitterB ["c1", "c2"]))).headers
      "Content-Length" = none :=
  have h := C9_connection_streams_emitter (some "Basic u:p") [] ["c1", "c2"]
  ⟨h.1, h.2.1, h.2.2.1, h.2.2.2 rfl⟩

/-- The Content-Type defaulting step keeps every header that is
already present. -/
theorem ctHeaders_keeps (c : Couch.Client) (w : Bool) (hs : List (String × String))
    (k v : String) (h : JS.propGet hs k = some v) :
    JS.propGet (Couch.ctHeaders c w hs) k = some v := by
  unfold Couch.ctHeaders
  cases w with
  | false => simpa using h
  | true =>
    simp only [if_true]
    by_cases hct : (JS.propGet hs "Content-Type").isSome
    · simpa [hct] using h
    · rw [if_neg hct]
      by_cases hk : k = "Content-Type"
      · exfalso
        rw [hk] at h
        simp [h] at hct
      · rw [JS.propGet_propSet_ne _ _ _ _ hk]
        exact h

/-- The body preparation step keeps every header that is already
present. -/
theorem prepareData_keeps (d : Couch.JSData) (hs : List (String × String))
    (k v : String) (h : JS.propGet hs k = some v) :
    JS.propGet (Couch.prepareData d hs).2 k = some v := by
  have core : ∀ len : Nat,
      JS.propGet (if (JS.propGet hs "Content-Length").isSome then hs
        else JS.propSet hs "Content-Length" (toString len)) k = some v := by
    intro len
    by_cases hcl : (JS.propGet hs "Content-Length").isSome
    · simpa [hcl] using h
    · rw [if_neg hcl]
      by_cases hk : k = "Content-Length"
      · exfalso
        rw [hk] at h
        simp [h] at hcl
      · rw [JS.propGet_propSet_ne _ _ _ _ hk]
        exact h
  cases d <;> exact core _

/-- The complete header pipeline of request keeps every header present
after the merge step. -/
theorem finalHeaders_keeps (c : Couch.Client) (w : Bool) (data : Option Couch.JSData)
    (hs0 : List (String × String)) (k v : String) (h : JS.propGet hs0 k = some v) :
    JS.propGet (Couch.finalHeaders c w data hs0) k = some v := by
  unfold Couch.finalHeaders
  by_cases hcond : (w && Couch.dataTruthy data) = true
  · simp only [hcond, if_true]
    cases data with
    | none => exact ctHeaders_keeps c w hs0 k v h
    | some d => exact prepareData_keeps d _ k v (ctHeaders_keeps c w hs0 k v h)
  · simp only [hcond, Bool.false_eq_true, if_false]
    exact ctHeaders_keeps c w hs0 k v h

/-- C10: a verb dispatch that receives an options object rewrites that
object in place: afterwards its method is the verb, its path is the
full base path plus the rendered query string, absent host and port
are filled from the client, its query object has been extended by the
merge inside getQuery, and the client default headers, credential
header included, are merged into the caller headers object; likewise
getQuery inserts default-query fallback keys into the caller-supplied
extra object.  Reusing the mutated object for a second request
prefixes the base path again, so it no longer describes the original
request. -/
theorem C10_options_object_mutation :
    (∀ (c : Couch.Client) (m : String) (o : Couch.CallOpts) (d : Option Couch.JSData),
        m ≠ "" →
        (Couch.doRequest c m (.opts o) d none).2.1.method = some m) ∧
    (∀ (c : Couch.Client) (m : String) (o : Couch.CallOpts) (d : Option Couch.JSData),
        (Couch.doRequest c m (.opts o) d none).2.1.path =
          some (Couch.getPath c o.path ++ Couch.getQuery c o.query)) ∧
    (∀ (c : Couch.Client) (m : String) (o : Couch.CallOpts) (d : Option Couch.JSData),
        o.host = none →
        (Couch.doRequest c m (.opts o) d none).2.1.host = some c.host) ∧
    (∀ (c : Couch.Client) (m : String) (o : Couch.CallOpts) (d : Option Couch.JSData),
        o.port = none →
        (Couch.doRequest c m (.opts o) d none).2.1.port = some c.port) ∧
    (∀ (c : Couch.Client) (m : String) (o : Couch.CallOpts) (d : Option Couch.JSData),
        (Couch.doRequest c m (.opts o) d none).2.1.query =
          o.query.map (fun qo => JS.merge c.query qo)) ∧
    (∀ (c : Couch.Client) (m : String) (o : Couch.CallOpts) (d : Option Couch.JSData)
        (k v : String),
        JS.propGet (o.headers.getD []) k = none →
        JS.propGet c.headers k = some v →
        JS.propGet ((Couch.doRequest c m (.opts o) d none).2.1.headers.getD []) k =
          some v) ∧
    (∀ (c : Couch.Client) (extra : List (String × String)) (k v : String),
        JS.propGet extra k = none → JS.propGet c.query k = some v →
        JS.propGet (Couch.getQueryMutated c extra) k = some v) ∧
    ((Couch.doRequest Couch.exampleBaseClient "GET" (.opts { path := some "db" })
        none none).2.1.path = some "/base/db" ∧
     (Couch.doRequest Couch.exampleBaseClient "GET"
         (.opts (Couch.doRequest Couch.exampleBaseClient "GET"
           (.opts { path := some "db" }) none none).2.1) none none).2.1.path =
       some "/base/base/db") := by
  refine ⟨?_, ?_, ?_, ?_, ?_, ?_, ?_, by decide, by decide⟩
  · intro c m o d hm
    simp [Couch.doRequest, Couch.request, Couch.reqArgOpts, Couch.jsOrStr, hm]
  · intro c m o d
    rfl
  · intro c m o d ho
    simp [Couch.doRequest, Couch.request, Couch.reqArgOpts, Couch.jsOrStr, ho]
  · intro c m o d hp
    simp [Couch.doRequest, Couch.request, Couch.reqArgOpts, Couch.jsOrInt, hp]
  · intro c m o d
    rfl
  · intro c m o d k v hko hkc
    have hmerged : JS.propGet (JS.merge c.headers (o.headers.getD [])) k = some v := by
      rw [JS.merge_fallback _ _ _ hko]
      exact hkc
    exact finalHeaders_keeps _ _ _ _ _ _ hmerged
  · intro c extra k v hke hkq
    unfold Couch.getQueryMutated
    rw [JS.merge_fallback _ _ _ hke]
    exact hkq

/-- C10, witness: the quantified parts applied at concrete inputs: a
PUT on the default client, a client carrying a credential header whose
key is absent from the caller headers, and a default query key missing
from the extra object. -/
theorem C10_options_object_mutation_witness :
    (Couch.doRequest Couch.defaultClient "PUT" (.opts {}) none none).2.1.method =
      some "PUT" ∧
    (Couch.doRequest Couch.defaultClient "PUT" (.opts {}) none none).2.1.host =
      some Couch.defaultClient.host ∧
    JS.propGet
      ((Couch.doRequest
          { Couch.defaultClient with headers := [("Authentication", "Basic user:pass")] }
          "GET" (.opts {}) none none).2.1.headers.getD []) "Authentication" =
      some "Basic user:pass" ∧
    JS.propGet
      (Couch.getQueryMutated { Couch.defaultClient with query := [("PARAM", "ORIGINAL")] }
        [("OTHER", "X")]) "PARAM" = some "ORIGINAL" :=
  ⟨C10_options_object_mutation.1 Couch.defaultClient "PUT" {} none (by decide),
   C10_options_object_mutation.2.2.1 Couch.defaultClient "PUT" {} none rfl,
   C10_options_object_mutation.2.2.2.2.2.1
     { Couch.defaultClient with headers := [("Authentication", "Basic user:pass")] }
     "GET" {} none "Authentication" "Basic user:pass" rfl rfl,
   C10_options_object_mutation.2.2.2.2.2.2.1
     { Couch.defaultClient with query := [("PARAM", "ORIGINAL")] }
     [("OTHER", "X")] "PARAM" "ORIGINAL" rfl rfl⟩

/-- Running the decoder over a fragment prefix: each truthy fragment
is buffered, each fragment that parses alone emits a chunk event, and
the run continues over the remaining events with the extended
buffer. -/
theorem decodeRunAux_frags (status : ℚ) (frags : List String) (b : List String)
    (rest : List Couch.RespEvent) :
    Couch.decodeRunAux status { buf := b, ended := false }
        (frags.map Couch.RespEvent.dataEv ++ rest) =
      (Couch.chunkEvents frags ++
        (Couch.decodeRunAux status
          { buf := b ++ frags.filter (fun f => f ≠ ""), ended := false } rest).1,
       (Couch.decodeRunAux status
          { buf := b ++ frags.filter (fun f => f ≠ ""), ended := false } rest).2) := by
  induction frags generalizing b with
  | nil => simp [Couch.chunkEvents]
  | cons f rest2 ih =>
    by_cases hf : f = ""
    · subst hf
      have step : Couch.decodeStep status { buf := b, ended := false } (.dataEv "") =
          some ({ buf := b, ended := false }, []) := rfl
      simp [Couch.decodeRunAux, step, ih, Couch.chunkEvents, List.filterMap_cons,
        show JS.jsonParse "" = none from rfl]
    · have step : Couch.decodeStep status { buf := b, ended := false } (.dataEv f) =
          some ({ buf := b ++ [f], ended := false },
            match JS.jsonParse f with
            | some v => [Couch.Emit.chunkE v]
            | none => []) := by
        simp [Couch.decodeStep, hf]
      cases hp : JS.jsonParse f with
      | some v =>
        simp [Couch.decodeRunAux, step, hp, ih, Couch.chunkEvents, List.filterMap_cons, hf,
          List.append_assoc]
      | none =>
        simp [Couch.decodeRunAux, step, hp, ih, Couch.chunkEvents, List.filterMap_cons, hf,
          List.append_assoc]

/-- Chunk events are never terminal. -/
theorem chunkEvents_no_terminal (frags : List String) :
    (Couch.chunkEvents frags).countP (fun e => Couch.isTerminal e) = 0 := by
  rw [List.countP_eq_zero]
  intro e he
  rw [Couch.chunkEvents, List.mem_filterMap] at he
  obtain ⟨f, _, hmap⟩ := he
  obtain ⟨v, _, hev⟩ := Option.map_eq_some'.mp hmap
  rw [← hev]
  simp [Couch.isTerminal]

/-- Appending a block that holds exactly one terminal event as its
last element to a run of chunk events yields a single-terminal
sequence. -/
theorem singleTerminal_chunks_append (frags : List String) (out : List Couch.Emit)
    (h1 : out.countP (fun e => Couch.isTerminal e) = 1)
    (h2 : ∃ e, out.getLast? = some e ∧ Couch.isTerminal e = true) :
    Couch.singleTerminal (Couch.chunkEvents frags ++ out) := by
  constructor
  · rw [List.countP_append, chunkEvents_no_terminal]
    simpa using h1
  · obtain ⟨e, he, ht⟩ := h2
    refine ⟨e, ?_, ht⟩
    rw [List.getLast?_append, he]
    rfl

/-- C1, counterexample: a transport-level close arriving after the end
of a response stream is forwarded after the terminal event already
emitted by the end handler, so the emitter delivers two terminal
events; here a 200 response with an empty body emits body and a
SyntaxError close, then forwards the transport close as a second
close. -/
theorem C1_terminal_counterexample :
    (Couch.requestJsonEvents 200 [.endEv, .closeEv 0]).1 =
      [Couch.Emit.bodyE "", Couch.Emit.closeE .syntaxErr,
       Couch.Emit.closeE (.transportErr 0)] ∧
    (Couch.requestJsonEvents 200 [.endEv, .closeEv 0]).1.countP
      (fun e => Couch.isTerminal e) = 2 := by
  exact ⟨by decide, by decide⟩

/-- C1, amended: when the incoming response events hold at most one
of end and transport close, and no decoder handler throws, the emitted
event sequence has exactly one terminal event and it comes last: data
fragments followed by end yield one terminal, and data fragments
followed by a premature transport close yield one forwarded close;
only an incoming sequence carrying end and then also a transport-level
close makes the emitter deliver a second terminal event. -/
theorem C1_single_terminal :
    (∀ (status : ℚ) (frags : List String),
        (Couch.requestJsonEvents status (frags.map .dataEv ++ [.endEv])).2 = false →
        Couch.singleTerminal
          (Couch.requestJsonEvents status (frags.map .dataEv ++ [.endEv])).1) ∧
    (∀ (status : ℚ) (frags : List String) (tag : Nat),
        Couch.singleTerminal
          (Couch.requestJsonEvents status (frags.map .dataEv ++ [.closeEv tag])).1) := by
  constructor
  · intro status frags hok
    unfold Couch.requestJsonEvents at hok ⊢
    rw [decodeRunAux_frags] at hok ⊢
    set bf : List String := [] ++ frags.filter (fun f => f ≠ "") with hbf
    by_cases h4 : status < 400
    · cases hp : JS.jsonParse (String.join bf) with
      | some v =>
        have hrest : Couch.decodeRunAux status { buf := bf, ended := false } [.endEv] =
            ([Couch.Emit.dataE v, Couch.Emit.endE], false) := by
          simp [Couch.decodeRunAux, Couch.decodeStep, h4, hp]
        rw [hrest]
        exact singleTerminal_chunks_append _ _ (by simp [List.countP_cons, List.countP_nil, Couch.isTerminal])
          ⟨Couch.Emit.endE, by rw [show [Couch.Emit.dataE v, Couch.Emit.endE] =
            [Couch.Emit.dataE v] ++ [Couch.Emit.endE] from rfl, List.getLast?_concat], rfl⟩
      | none =>
        have hrest : Couch.decodeRunAux status { buf := bf, ended := false } [.endEv] =
            ([Couch.Emit.bodyE (String.join bf), Couch.Emit.closeE .syntaxErr], false) := by
          simp [Couch.decodeRunAux, Couch.decodeStep, h4, hp]
        rw [hrest]
        exact singleTerminal_chunks_append _ _ (by simp [List.countP_cons, List.countP_nil, Couch.isTerminal])
          ⟨Couch.Emit.closeE .syntaxErr,
            by rw [show [Couch.Emit.bodyE (String.join bf), Couch.Emit.closeE .syntaxErr] =
              [Couch.Emit.bodyE (String.join bf)] ++ [Couch.Emit.closeE .syntaxErr] from rfl,
              List.getLast?_concat], rfl⟩
    · cases hm : Couch.makeError (.num status) (String.join bf) with
      | some e =>
        have hrest : Couch.decodeRunAux status { buf := bf, ended := false } [.endEv] =
            ([Couch.Emit.closeE (.httpErr e)], false) := by
          simp [Couch.decodeRunAux, Couch.decodeStep, h4, hm]
        rw [hrest]
        exact singleTerminal_chunks_append _ _ (by simp [List.countP_cons, List.countP_nil, Couch.isTerminal])
          ⟨Couch.Emit.closeE (.httpErr e), rfl, rfl⟩
      | none =>
        exfalso
        have hrest : Couch.decodeRunAux status { buf := bf, ended := false } [.endEv] =
            ([], true) := by
          simp [Couch.decodeRunAux, Couch.decodeStep, h4, hm]
        rw [hrest] at hok
        exact Bool.noConfusion hok
  · intro status frags tag
    unfold Couch.requestJsonEvents
    rw [decodeRunAux_frags]
    have hrest : Couch.decodeRunAux status
        { buf := [] ++ frags.filter (fun f => f ≠ ""), ended := false } [.closeEv tag] =
        ([Couch.Emit.closeE (.transportErr tag)], false) := by
      simp [Couch.decodeRunAux, Couch.decodeStep]
    rw [hrest]
    exact singleTerminal_chunks_append _ _ (by simp [List.countP_cons, List.countP_nil, Couch.isTerminal])
      ⟨Couch.Emit.closeE (.transportErr tag), rfl, rfl⟩

/-- C1, witness: the single-terminal property evaluated on a 200
response delivering one fragment then end, and on a premature close
with the tag zero. -/
theorem C1_single_terminal_witness :
    Couch.singleTerminal
      (Couch.requestJsonEvents 200 [Couch.RespEvent.dataEv "\"x\"",
        Couch.RespEvent.endEv]).1 ∧
    Couch.singleTerminal
      (Couch.requestJsonEvents 200 [Couch.RespEvent.dataEv "\"x\"",
        Couch.RespEvent.closeEv 0]).1 :=
  ⟨C1_single_terminal.1 200 ["\"x\""] (by decide),
   C1_single_terminal.2 200 ["\"x\""] 0⟩

/-- Every event of the fragment phase is a chunk event. -/
theorem chunkEvents_shape (frags : List String) :
    ∀ e ∈ Couch.chunkEvents frags, ∃ v, e = Couch.Emit.chunkE v := by
  intro e he
  rw [Couch.chunkEvents, List.mem_filterMap] at he
  obtain ⟨f, _, hmap⟩ := he
  obtain ⟨v, _, hev⟩ := Option.map_eq_some'.mp hmap
  exact ⟨v, hev.symm⟩

/-- C6: for a JSON-mode request whose response has a status below 400
and a body that does not parse as JSON, the decoder emits the chunk
events of the fragment phase, then exactly one body event carrying the
raw body text, then exactly one close event carrying the decode-error
record; no data or end event occurs anywhere, no handler throws, and
nothing follows the close; the broken-body example of the
specification emits exactly the body event with the literal text and
the single close. -/
theorem C6_decode_failure_events :
    (∀ (status : ℚ) (frags : List String),
        status < 400 →
        JS.jsonParse (String.join (frags.filter (fun f => f ≠ ""))) = none →
        (Couch.requestJsonEvents status (frags.map .dataEv ++ [.endEv])).1 =
          Couch.chunkEvents frags ++
            [Couch.Emit.bodyE (String.join (frags.filter (fun f => f ≠ ""))),
             Couch.Emit.closeE .syntaxErr] ∧
        (Couch.requestJsonEvents status (frags.map .dataEv ++ [.endEv])).2 = false ∧
        (∀ v : JS.JValue, Couch.Emit.dataE v ∉
          (Couch.requestJsonEvents status (frags.map .dataEv ++ [.endEv])).1) ∧
        Couch.Emit.endE ∉
          (Couch.requestJsonEvents status (frags.map .dataEv ++ [.endEv])).1 ∧
        (Couch.requestJsonEvents status (frags.map .dataEv ++ [.endEv])).1.getLast? =
          some (Couch.Emit.closeE .syntaxErr)) ∧
    ((Couch.requestJsonEvents 200 [.dataEv "\x7b broken \x7d", .endEv]).1 =
      [Couch.Emit.bodyE "\x7b broken \x7d", Couch.Emit.closeE .syntaxErr]) := by
  refine ⟨?_, by decide⟩
  intro status frags h4 hp
  have heq : Couch.requestJsonEvents status (frags.map .dataEv ++ [.endEv]) =
      (Couch.chunkEvents frags ++
        [Couch.Emit.bodyE (String.join (frags.filter (fun f => f ≠ ""))),
         Couch.Emit.closeE .syntaxErr], false) := by
    unfold Couch.requestJsonEvents
    rw [decodeRunAux_frags]
    simp only [List.nil_append]
    have hrest : Couch.decodeRunAux status
        { buf := frags.filter (fun f => f ≠ ""), ended := false } [.endEv] =
        ([Couch.Emit.bodyE (String.join (frags.filter (fun f => f ≠ ""))),
          Couch.Emit.closeE .syntaxErr], false) := by
      have hp2 := hp
      simp only [ne_eq, decide_not] at hp2
      simp [Couch.decodeRunAux, Couch.decodeStep, h4, hp2]
    rw [hrest]
  rw [heq]
  refine ⟨rfl, rfl, ?_, ?_, ?_⟩
  · intro v hv
    rw [List.mem_append] at hv
    cases hv with
    | inl h =>
      obtain ⟨w, hw⟩ := chunkEvents_shape frags _ h
      exact Couch.Emit.noConfusion hw
    | inr h => simp at h
  · intro hv
    rw [List.mem_append] at hv
    cases hv with
    | inl h =>
      obtain ⟨w, hw⟩ := chunkEvents_shape frags _ h
      exact Couch.Emit.noConfusion hw
    | inr h => simp at h
  · rw [List.getLast?_append]
    rfl

/-- C6, witness: the decode-failure rule evaluated on the concrete 200
response with the broken body of the specification. -/
theorem C6_decode_failure_events_witness :
    (Couch.requestJsonEvents 200 [Couch.RespEvent.dataEv "\x7b broken \x7d",
        Couch.RespEvent.endEv]).1 =
      Couch.chunkEvents ["\x7b broken \x7d"] ++
        [Couch.Emit.bodyE (String.join (["\x7b broken \x7d"].filter (fun f => f ≠ ""))),
         Couch.Emit.closeE .syntaxErr] :=
  (C6_decode_failure_events.1 200 ["\x7b broken \x7d"] (by decide) (by decide)).1

/-- Taking while a predicate holds runs past a prefix on which it
holds everywhere. -/
theorem takeWhileAppendAll {α : Type} (p : α → Bool) (xs ys : List α)
    (h : ∀ x ∈ xs, p x = true) :
    (xs ++ ys).takeWhile p = xs ++ ys.takeWhile p := by
  induction xs with
  | nil => simp
  | cons a t ih =>
    have ha := h a (by simp)
    simp [List.takeWhile_cons, ha, ih (fun x hx => h x (by simp [hx]))]

/-- Dropping while a predicate holds consumes a prefix on which it
holds everywhere. -/
theorem dropWhileAppendAll {α : Type} (p : α → Bool) (xs ys : List α)
    (h : ∀ x ∈ xs, p x = true) :
    (xs ++ ys).dropWhile p = ys.dropWhile p := by
  induction xs with
  | nil => simp
  | cons a t ih =>
    have ha := h a (by simp)
    simp [List.dropWhile_cons, ha, ih (fun x hx => h x (by simp [hx]))]

/-- Taking while a predicate that holds everywhere keeps the whole
list. -/
theorem takeWhileAll {α : Type} (p : α → Bool) (xs : List α)
    (h : ∀ x ∈ xs, p x = true) : xs.takeWhile p = xs := by
  have := takeWhileAppendAll p xs [] h
  simpa using this

/-- Taking while a predicate stops at a failing head. -/
theorem takeWhileConsNeg {α : Type} (p : α → Bool) (a : α) (xs : List α)
    (h : p a = false) : (a :: xs).takeWhile p = [] := by
  simp [List.takeWhile_cons, h]

/-- Dropping while a predicate stops at a failing head. -/
theorem dropWhileConsNeg {α : Type} (p : α → Bool) (a : α) (xs : List α)
    (h : p a = false) : (a :: xs).dropWhile p = a :: xs := by
  simp [List.dropWhile_cons, h]

/-- Host characters are unchanged by lowercasing. -/
theorem hostChar_toLower (a : Char) (h : Couch.hostChar a = true) :
    a.toLower = a := by
  unfold Char.toLower
  have hn : ¬(a.toNat ≥ 65 ∧ a.toNat ≤ 90) := by
    simp [Couch.hostChar] at h
    omega
  simp [hn]

/-- A host-character list is unchanged by lowercasing. -/
theorem mapToLowerHost (l : List Char) (h : l.all Couch.hostChar = true) :
    l.map Char.toLower = l := by
  induction l with
  | nil => rfl
  | cons a t ih =>
    rw [List.all_cons, Bool.and_eq_true] at h
    rw [List.map_cons, hostChar_toLower a h.1, ih h.2]

/-- A character satisfying a predicate differs from any character the
predicate rejects. -/
theorem neOfPredFalse {p : Char → Bool} {c d : Char} (h : p c = true)
    (hd : p d = false) : c ≠ d := by
  rintro rfl
  rw [h] at hd
  exact Bool.noConfusion hd

/-- Dropping while a predicate that holds everywhere drops the whole
list. -/
theorem dropWhileAll {α : Type} (p : α → Bool) (xs : List α)
    (h : ∀ x ∈ xs, p x = true) : xs.dropWhile p = [] := by
  have := dropWhileAppendAll p xs [] h
  simpa using this

/-- The authority component stops exactly at the slash that starts the
path. -/
theorem takeAuthority_of_safe (A B : List Char)
    (h : ∀ x ∈ A, JS.authorityChar x = true) :
    (A ++ '/' :: B).takeWhile JS.authorityChar = A ∧
    (A ++ '/' :: B).dropWhile JS.authorityChar = '/' :: B := by
  constructor
  · rw [takeWhileAppendAll _ _ _ h, takeWhileConsNeg _ _ _ (by decide)]
    simp
  · rw [dropWhileAppendAll _ _ _ h, dropWhileConsNeg _ _ _ (by decide)]

/-- An authority without an at sign carries no credentials. -/
theorem splitLastAt_none (l : List Char) (h : ∀ x ∈ l, x ≠ '@') :
    JS.splitLastAt '@' l = none := by
  simp only [JS.splitLastAt]
  rw [takeWhileAll _ _ (fun x hx => by
    simpa using h x (List.mem_reverse.mp hx))]
  rw [List.drop_length]

/-- An authority formed from at-sign-free credentials, the separator
and an at-sign-free host-and-port splits at that at sign. -/
theorem splitLastAt_found (a l : List Char)
    (hl : ∀ x ∈ l, x ≠ '@') :
    JS.splitLastAt '@' (a ++ '@' :: l) = some (a, l) := by
  simp only [JS.splitLastAt]
  have hrev : (a ++ '@' :: l).reverse = l.reverse ++ '@' :: a.reverse := by
    simp
  rw [hrev]
  rw [takeWhileAppendAll _ _ _ (fun x hx => by
    simpa using hl x (List.mem_reverse.mp hx))]
  rw [takeWhileConsNeg _ _ _ (by decide)]
  simp only [List.append_nil]
  rw [List.drop_left]
  simp

/-- A host-and-port list with a digit run after the final colon splits
into the host and the port digits. -/
theorem splitHostPort_built (h d : List Char) (hd : d ≠ [])
    (hdig : ∀ x ∈ d, Char.isDigit x = true) :
    JS.splitHostPort (h ++ ':' :: d) = (h, some (String.mk d)) := by
  simp only [JS.splitHostPort]
  have hrev : (h ++ ':' :: d).reverse = d.reverse ++ ':' :: h.reverse := by
    simp
  rw [hrev]
  rw [takeWhileAppendAll _ _ _ (fun x hx => hdig x (List.mem_reverse.mp hx))]
  rw [takeWhileConsNeg _ _ _ (by decide)]
  simp only [List.append_nil]
  rw [List.drop_left]
  have hdr : d.reverse ≠ [] := by simpa using hd
  simp [hdr]

/-- A pathname without a query keeps everything and yields no query
field. -/
theorem splitPathQuery_noQuery (p : List Char) (hne : p ≠ [])
    (hp : ∀ x ∈ p, x ≠ '?' ∧ x ≠ '#') :
    JS.splitPathQuery p = (some (String.mk p), none) := by
  simp only [JS.splitPathQuery]
  rw [takeWhileAll (fun c => decide (c ≠ '#')) p
    (fun x hx => by simpa using (hp x hx).2)]
  rw [takeWhileAll (fun c => decide (c ≠ '?')) p
    (fun x hx => by simpa using (hp x hx).1)]
  rw [dropWhileAll (fun c => decide (c ≠ '?')) p
    (fun x hx => by simpa using (hp x hx).1)]
  simp [hne]

/-- A pathname followed by a question mark and a fragment-free query
text splits into the two fields. -/
theorem splitPathQuery_query (p s : List Char) (hne : p ≠ [])
    (hp : ∀ x ∈ p, x ≠ '?' ∧ x ≠ '#') (hs : ∀ x ∈ s, x ≠ '#') :
    JS.splitPathQuery (p ++ '?' :: s) = (some (String.mk p), some (String.mk s)) := by
  simp only [JS.splitPathQuery]
  rw [takeWhileAll (fun c => decide (c ≠ '#')) (p ++ '?' :: s) (fun x hx => by
    rcases List.mem_append.mp hx with hx | hx
    · simpa using (hp x hx).2
    · rcases List.mem_cons.mp hx with rfl | hx
      · decide
      · simpa using hs x hx)]
  rw [takeWhileAppendAll (fun c => decide (c ≠ '?')) p ('?' :: s)
    (fun x hx => by simpa using (hp x hx).1)]
  rw [takeWhileConsNeg (fun c => decide (c ≠ '?')) '?' s (by decide)]
  rw [dropWhileAppendAll (fun c => decide (c ≠ '?')) p ('?' :: s)
    (fun x hx => by simpa using (hp x hx).1)]
  rw [dropWhileConsNeg (fun c => decide (c ≠ '?')) '?' s (by decide)]
  simp [hne]

/-- Rebuilding a string from its characters gives the string back. -/
theorem mkData (s : String) : String.mk s.data = s := rfl

/-- Parsing the post-slashes part of a built URL recovers its
components: the credentials before the at sign, the host, the digit
port after the colon, the slash-leading pathname and the query after
the question mark. -/
theorem parseAuthorityAndPath_built (protocol : Option String)
    (authOpt : Option String) (host portStr : String) (pt : List Char)
    (qOpt : Option String)
    (hauth : ∀ a, authOpt = some a →
      a.data.all (fun ch => ch ≠ '@' && ch ≠ '/' && ch ≠ '?' && ch ≠ '#') = true)
    (hhost : host.data.all Couch.hostChar = true)
    (hportNe : portStr.data ≠ [])
    (hportDig : portStr.data.all Char.isDigit = true)
    (hpt : ∀ x ∈ pt, x ≠ '?' ∧ x ≠ '#')
    (hq : ∀ q, qOpt = some q → ∀ x ∈ q.data, x ≠ '#') :
    JS.parseAuthorityAndPath protocol
      ((match authOpt with
        | some a => a.data ++ '@' :: (host.data ++ ':' :: portStr.data)
        | none => host.data ++ ':' :: portStr.data) ++
        '/' :: (pt ++ (match qOpt with | some q => '?' :: q.data | none => []))) =
      { protocol := protocol
        auth := authOpt
        host := some (host ++ (":" ++ portStr))
        hostname := some host
        port := some portStr
        pathname := some (String.mk ('/' :: pt))
        query := qOpt } := by
  have hostPortNoAt : ∀ x ∈ host.data ++ ':' :: portStr.data, x ≠ '@' := by
    intro x hx
    rcases List.mem_append.mp hx with hx | hx
    · exact neOfPredFalse (by simpa using List.all_eq_true.mp hhost x hx) (by decide)
    · rcases List.mem_cons.mp hx with rfl | hx
      · decide
      · exact neOfPredFalse (List.all_eq_true.mp hportDig x hx) (by decide)
  have hostPortAuthority : ∀ x ∈ host.data ++ ':' :: portStr.data,
      JS.authorityChar x = true := by
    intro x hx
    rcases List.mem_append.mp hx with hx | hx
    · have hc := List.all_eq_true.mp hhost x hx
      have h1 : x ≠ '/' := neOfPredFalse hc (by decide)
      have h2 : x ≠ '?' := neOfPredFalse hc (by decide)
      have h3 : x ≠ '#' := neOfPredFalse hc (by decide)
      simp [JS.authorityChar, h1, h2, h3]
    · rcases List.mem_cons.mp hx with rfl | hx
      · decide
      · have hc := List.all_eq_true.mp hportDig x hx
        have h1 : x ≠ '/' := neOfPredFalse hc (by decide)
        have h2 : x ≠ '?' := neOfPredFalse hc (by decide)
        have h3 : x ≠ '#' := neOfPredFalse hc (by decide)
        simp [JS.authorityChar, h1, h2, h3]
  have hsl : ∀ x ∈ ('/' :: pt), x ≠ '?' ∧ x ≠ '#' := by
    intro x hx
    rcases List.mem_cons.mp hx with rfl | hx
    · exact ⟨by decide, by decide⟩
    · exact hpt x hx
  have hptRw : String.mk ('/' :: pt) ≠ "" := by
    intro hc
    have : ('/' :: pt) = "".data := congrArg String.data hc
    simp at this
  cases authOpt with
  | none =>
    simp only [JS.parseAuthorityAndPath]
    rw [(takeAuthority_of_safe _ _ hostPortAuthority).1,
      (takeAuthority_of_safe _ _ hostPortAuthority).2]
    rw [splitLastAt_none _ hostPortNoAt]
    rw [splitHostPort_built host.data portStr.data hportNe
      (fun x hx => List.all_eq_true.mp hportDig x hx)]
    rw [mapToLowerHost host.data hhost]
    cases qOpt with
    | none =>
      rw [show ('/' :: (pt ++ ([] : List Char))) = '/' :: pt by simp]
      rw [splitPathQuery_noQuery ('/' :: pt) (by simp) hsl]
    | some q =>
      rw [show ('/' :: (pt ++ '?' :: q.data)) = ('/' :: pt) ++ '?' :: q.data by simp]
      rw [splitPathQuery_query ('/' :: pt) q.data (by simp) hsl (hq q rfl)]
  | some a =>
    have hAuthority : ∀ x ∈ a.data ++ '@' :: (host.data ++ ':' :: portStr.data),
        JS.authorityChar x = true := by
      intro x hx
      rcases List.mem_append.mp hx with hx | hx
      · have hc := List.all_eq_true.mp (hauth a rfl) x hx
        rw [Bool.and_eq_true, Bool.and_eq_true, Bool.and_eq_true] at hc
        simp only [JS.authorityChar, Bool.and_eq_true]
        exact ⟨⟨hc.1.1.2, hc.1.2⟩, hc.2⟩
      · rcases List.mem_cons.mp hx with rfl | hx
        · decide
        · exact hostPortAuthority x hx
    simp only [JS.parseAuthorityAndPath]
    rw [(takeAuthority_of_safe _ _ hAuthority).1,
      (takeAuthority_of_safe _ _ hAuthority).2]
    rw [splitLastAt_found a.data _ hostPortNoAt]
    rw [splitHostPort_built host.data portStr.data hportNe
      (fun x hx => List.all_eq_true.mp hportDig x hx)]
    rw [mapToLowerHost host.data hhost]
    cases qOpt with
    | none =>
      rw [show ('/' :: (pt ++ ([] : List Char))) = '/' :: pt by simp]
      rw [splitPathQuery_noQuery ('/' :: pt) (by simp) hsl]
    | some q =>
      rw [show ('/' :: (pt ++ '?' :: q.data)) = ('/' :: pt) ++ '?' :: q.data by simp]
      rw [splitPathQuery_query ('/' :: pt) q.data (by simp) hsl (hq q rfl)]

/-- Parsing a URL built with an http or https scheme and a double
slash delegates to the authority parse. -/
theorem parseUrl_built (s : String) (proto : String)
    (hp : proto = "http:" ∨ proto = "https:")
    (r2 : List Char)
    (hs : s.data = proto.data ++ '/' :: '/' :: r2) :
    JS.parseUrl s = JS.parseAuthorityAndPath (some proto) r2 := by
  simp only [JS.parseUrl]
  rw [hs]
  rcases hp with hp | hp <;> subst hp <;> rfl

/-- C5, witness: the amended message rule applied to the concrete 404
response body of the specification. -/
theorem C5_makeError_message_witness :
    Couch.makeError (.num 404) "\x7b\"error\":\"not_found\",\"reason\":\"missing\"\x7d" =
      some { code := .val 404, name := (Couch.defineError (.num 404)).name,
             message := JS.replaceFirst "not_found" '_' ' ' ++ ": " ++
               JS.replaceFirst "missing" '_' ' ' } :=
  C5_makeError_message.2.1 404
    "\x7b\"error\":\"not_found\",\"reason\":\"missing\"\x7d" "not_found" "missing"
    (JS.JValue.jobj (.cons "error" (.jstr "not_found") (.cons "reason" (.jstr "missing") .nil)))
    rfl rfl rfl (by decide) rfl (by decide)

/-- Every character code is a valid Unicode scalar value below the
Unicode bound. -/
theorem charToNatLt (c : Char) : c.toNat < 1114112 := by
  have hv := c.valid
  rcases hv with h | ⟨h1, h2⟩
  · have hb : c.val.toNat < 0xd800 := h
    have he : c.toNat = c.val.toNat := rfl
    omega
  · have hb : c.val.toNat < 0x110000 := h2
    have he : c.toNat = c.val.toNat := rfl
    omega

/-- Every UTF-8 byte produced for a character is below 256. -/
theorem charUtf8_lt (c : Char) : ∀ b ∈ JS.charUtf8 c, b < 256 := by
  intro b hb
  have hcb := charToNatLt c
  simp only [JS.charUtf8] at hb
  by_cases h1 : c.toNat < 128
  · simp [h1] at hb
    omega
  · by_cases h2 : c.toNat < 2048
    · simp [h1, h2] at hb
      rcases hb with rfl | rfl <;> omega
    · by_cases h3 : c.toNat < 65536
      · simp [h1, h2, h3] at hb
        rcases hb with rfl | rfl | rfl <;> omega
      · simp [h1, h2, h3] at hb
        rcases hb with rfl | rfl | rfl | rfl <;> omega

/-- Hexadecimal digit characters are not a slash, question mark or
hash. -/
theorem hexDigitChar_safe : ∀ m < 16, JS.hexDigitChar m ≠ '/' ∧
    JS.hexDigitChar m ≠ '?' ∧ JS.hexDigitChar m ≠ '#' := by decide

/-- The foldr step of the percent-encoder only emits unreserved
characters, percent signs and hexadecimal digits, none of which is a
slash, a question mark or a hash. -/
theorem encFoldSafe (l : List Char) :
    ∀ x ∈ l.foldr
      (fun c acc =>
        if JS.uriUnreserved c then c :: acc
        else (JS.charUtf8 c).foldr
          (fun b acc2 =>
            '%' :: JS.hexDigitChar (b / 16) :: JS.hexDigitChar (b % 16) :: acc2) acc)
      [],
      x ≠ '/' ∧ x ≠ '?' ∧ x ≠ '#' := by
  induction l with
  | nil => intro x hx; exact absurd hx (List.not_mem_nil x)
  | cons c t ih =>
    intro x hx
    simp only [List.foldr_cons] at hx
    by_cases hu : JS.uriUnreserved c
    · rw [if_pos hu] at hx
      rcases List.mem_cons.mp hx with rfl | hx
      · exact ⟨neOfPredFalse hu (by decide), neOfPredFalse hu (by decide),
          neOfPredFalse hu (by decide)⟩
      · exact ih x hx
    · rw [if_neg hu] at hx
      have inner : ∀ (bs : List Nat), (∀ b ∈ bs, b < 256) →
          x ∈ bs.foldr
            (fun b acc2 =>
              '%' :: JS.hexDigitChar (b / 16) :: JS.hexDigitChar (b % 16) :: acc2)
            (t.foldr
              (fun c acc =>
                if JS.uriUnreserved c then c :: acc
                else (JS.charUtf8 c).foldr
                  (fun b acc2 =>
                    '%' :: JS.hexDigitChar (b / 16) :: JS.hexDigitChar (b % 16) :: acc2)
                  acc)
              []) →
          x ≠ '/' ∧ x ≠ '?' ∧ x ≠ '#' := by
        intro bs
        induction bs with
        | nil => intro _ hx2; exact ih x hx2
        | cons b bt ihb =>
          intro hbnd hx2
          simp only [List.foldr_cons, List.mem_cons] at hx2
          rcases hx2 with rfl | rfl | rfl | hx2
          · exact ⟨by decide, by decide, by decide⟩
          · exact hexDigitChar_safe (b / 16)
              (Nat.div_lt_of_lt_mul (hbnd b (List.mem_cons_self b bt)))
          · exact hexDigitChar_safe (b % 16) (Nat.mod_lt b (by omega))
          · exact ihb (fun b2 hb2 => hbnd b2 (List.mem_cons_of_mem b hb2)) hx2
      exact inner (JS.charUtf8 c) (charUtf8_lt c) hx

/-- No character of a percent-encoded segment is a slash, a question
mark or a hash. -/
theorem encodeURIComponent_safe (s : String) :
    ∀ x ∈ (JS.encodeURIComponent s).data, x ≠ '/' ∧ x ≠ '?' ∧ x ≠ '#' :=
  encFoldSafe s.data

/-- Joining slash-free, query-free, hash-free parts with slashes gives
a string free of question marks and hashes. -/
theorem joinWith_safe (l : List String)
    (h : ∀ s ∈ l, ∀ x ∈ s.data, x ≠ '/' ∧ x ≠ '?' ∧ x ≠ '#') :
    ∀ x ∈ (Couch.joinWith "/" l).data, x ≠ '?' ∧ x ≠ '#' := by
  induction l with
  | nil => intro x hx; exact absurd hx (List.not_mem_nil x)
  | cons a t ih =>
    cases t with
    | nil =>
      intro x hx
      have h2 := h a (List.mem_cons_self a []) x hx
      exact ⟨h2.2.1, h2.2.2⟩
    | cons b t2 =>
      intro x hx
      have hx2 : x ∈ (a ++ "/" ++ Couch.joinWith "/" (b :: t2)).data := hx
      rw [String.data_append, String.data_append] at hx2
      rcases List.mem_append.mp hx2 with hx3 | hx3
      · rcases List.mem_append.mp hx3 with hx4 | hx4
        · have h2 := h a (List.mem_cons_self a (b :: t2)) x hx4
          exact ⟨h2.2.1, h2.2.2⟩
        · rcases List.mem_singleton.mp hx4 with rfl
          exact ⟨by decide, by decide⟩
      · exact ih (fun s hs => h s (List.mem_cons_of_mem a hs)) x hx3

/-- Unfolding of setUrl against a known parse result with a non-empty
protocol, hostname, port and pathname. -/
theorem setUrl_parsed (c0 : Couch.Client) (s : String)
    (proto hostStr portStr pn : String)
    (authOpt qOpt hostFull : Option String)
    (hparse : JS.parseUrl s =
      { protocol := some proto
        auth := authOpt
        host := hostFull
        hostname := some hostStr
        port := some portStr
        pathname := some pn
        query := qOpt })
    (hprotoNe : proto ≠ "") (hhostNe : hostStr ≠ "") (hportNe : portStr ≠ "")
    (hpnNe : pn ≠ "") :
    Couch.setUrl c0 (some s) =
      Couch.setCredentials
        { c0 with
          protocol := proto
          host := hostStr
          port := Couch.portNumber portStr
          method := "GET"
          path := pn
          headers := []
          query := (match qOpt with
            | some q => if q = "" then [] else JS.qsParse q
            | none => []) }
        (match authOpt with | some a => Couch.JArg.strv a | none => Couch.JArg.undef)
        Couch.JArg.undef := by
  cases authOpt <;> cases qOpt <;>
    simp only [Couch.setUrl, Option.getD_some, hparse] <;>
    simp [hprotoNe, hhostNe, hportNe, hpnNe]

/-- Two strings with the same character list are equal. -/
theorem strOfDataEq (a b : String) (h : a.data = b.data) : a = b := by
  cases a with
  | mk la => cases b with
    | mk lb => exact congrArg String.mk h

/-- The character list of a rebuilt string. -/
theorem dataMk (l : List Char) : (String.mk l).data = l := rfl

/-- The CouchClient constructor applied to the URL that getUrl-style
rendering produces for a well-formed client with a safe path extension
returns the same client with the extension appended to its path. -/
theorem CouchClient_rebuilt (c : Couch.Client) (hw : Couch.wellFormed c)
    (ext : String)
    (hext : ∀ x ∈ ext.data, x ≠ '?' ∧ x ≠ '#') :
    Couch.CouchClient (some (c.protocol ++ "//" ++ c.authUrl ++ c.host ++ ":" ++
      toString c.port ++ c.path ++ ext ++ Couch.getQuery c none)) =
      Except.ok { c with path := c.path ++ ext } := by
  obtain ⟨hproto, hmethod, hct, hhostNe, hhostChars, hpathHead, hpathSafe,
    hportNonneg, hportNe, hportDig, hportRound, hqRound, hqSafe, hauth⟩ := hw
  obtain ⟨pathTail, hpt⟩ : ∃ t, c.path.data = '/' :: t := by
    cases hpd : c.path.data with
    | nil => rw [hpd] at hpathHead; exact absurd hpathHead (by decide)
    | cons x t =>
      rw [hpd] at hpathHead
      exact ⟨t, by rw [show x = '/' from hpathHead]⟩
  have hpathStr : c.path = String.mk ('/' :: pathTail) := strOfDataEq _ _ hpt
  have hprotoNe : c.protocol ≠ "" := by
    rcases hproto with h | h <;> rw [h] <;> decide
  have hportStrNe : toString c.port ≠ "" := by
    intro h2
    exact hportNe (by rw [h2])
  have hpnNe : String.mk ('/' :: (pathTail ++ ext.data)) ≠ "" := by
    intro h2
    have h3 := congrArg String.data h2
    simp at h3
  have hcombSafe : ∀ x ∈ pathTail ++ ext.data, x ≠ '?' ∧ x ≠ '#' := by
    intro x hx
    rcases List.mem_append.mp hx with hx | hx
    · have h2 := List.all_eq_true.mp hpathSafe x
        (by rw [hpt]; exact List.mem_cons_of_mem '/' hx)
      simpa using h2
    · exact hext x hx
  have hpe2 : String.mk ('/' :: (pathTail ++ ext.data)) = c.path ++ ext := by
    apply strOfDataEq
    rw [String.data_append, hpt]
    simp
  have d2 : ("//" : String).data = ['/', '/'] := rfl
  have d3 : ((":") : String).data = [':'] := rfl
  have d0 : (("") : String).data = ([] : List Char) := rfl
  have d4 : (("?") : String).data = ['?'] := rfl
  have d5 : (("@") : String).data = ['@'] := rfl
  rcases hauth with ⟨ha1, ha2⟩ | ⟨a, ha1, ha2, ha3, ha4⟩ <;>
    by_cases hq0 : JS.qsStringify c.query = ""
  · -- no credentials, empty query string
    have hgq : Couch.getQuery c none = "" := by
      simp [Couch.getQuery, hq0]
    have hcq : c.query = [] := by
      rw [← hqRound, hq0]
      rfl
    have hs : (c.protocol ++ "//" ++ c.authUrl ++ c.host ++ ":" ++
        toString c.port ++ c.path ++ ext ++ Couch.getQuery c none).data =
        c.protocol.data ++ '/' :: '/' ::
          ((c.host.data ++ ':' :: (toString c.port).data) ++
            '/' :: ((pathTail ++ ext.data) ++ ([] : List Char))) := by
      rw [hgq, ha1, hpathStr]
      simp [String.data_append, dataMk, d2, d3, d0, List.append_assoc]
    have hparse2 := (parseUrl_built _ c.protocol hproto _ hs).trans
      (parseAuthorityAndPath_built (some c.protocol) none c.host (toString c.port)
        (pathTail ++ ext.data) none
        (fun a2 ha' => Option.noConfusion ha')
        hhostChars hportNe hportDig hcombSafe
        (fun q hq' => Option.noConfusion hq'))
    simp only [Couch.CouchClient]
    rw [setUrl_parsed _ _ c.protocol c.host (toString c.port)
      (String.mk ('/' :: (pathTail ++ ext.data))) none none _ hparse2
      hprotoNe hhostNe hportStrNe hpnNe]
    simp only [Couch.setCredentials, JS.propGet]
    simp [Couch.Client.mk.injEq, hportRound, hmethod, hct, hpe2, ha1, ha2, hcq]
  · -- no credentials, non-empty query string
    have hgq : Couch.getQuery c none = "?" ++ JS.qsStringify c.query := by
      simp [Couch.getQuery, hq0]
    have hs : (c.protocol ++ "//" ++ c.authUrl ++ c.host ++ ":" ++
        toString c.port ++ c.path ++ ext ++ Couch.getQuery c none).data =
        c.protocol.data ++ '/' :: '/' ::
          ((c.host.data ++ ':' :: (toString c.port).data) ++
            '/' :: ((pathTail ++ ext.data) ++
              '?' :: (JS.qsStringify c.query).data)) := by
      rw [hgq, ha1, hpathStr]
      simp [String.data_append, dataMk, d2, d3, d0, d4, List.append_assoc]
    have hparse2 := (parseUrl_built _ c.protocol hproto _ hs).trans
      (parseAuthorityAndPath_built (some c.protocol) none c.host (toString c.port)
        (pathTail ++ ext.data) (some (JS.qsStringify c.query))
        (fun a2 ha' => Option.noConfusion ha')
        hhostChars hportNe hportDig hcombSafe
        (fun q hq' => by
          injection hq' with h
          subst h
          intro x hx
          simpa using List.all_eq_true.mp hqSafe x hx))
    simp only [Couch.CouchClient]
    rw [setUrl_parsed _ _ c.protocol c.host (toString c.port)
      (String.mk ('/' :: (pathTail ++ ext.data))) none
      (some (JS.qsStringify c.query)) _ hparse2
      hprotoNe hhostNe hportStrNe hpnNe]
    simp only [Couch.setCredentials, JS.propGet]
    simp [Couch.Client.mk.injEq, hportRound, hmethod, hct, hpe2, ha1, ha2, hq0,
      hqRound]
  · -- credentials, empty query string
    have hgq : Couch.getQuery c none = "" := by
      simp [Couch.getQuery, hq0]
    have hcq : c.query = [] := by
      rw [← hqRound, hq0]
      rfl
    have hs : (c.protocol ++ "//" ++ c.authUrl ++ c.host ++ ":" ++
        toString c.port ++ c.path ++ ext ++ Couch.getQuery c none).data =
        c.protocol.data ++ '/' :: '/' ::
          ((a.data ++ '@' :: (c.host.data ++ ':' :: (toString c.port).data)) ++
            '/' :: ((pathTail ++ ext.data) ++ ([] : List Char))) := by
      rw [hgq, ha1, hpathStr]
      simp [String.data_append, dataMk, d2, d3, d0, d5, List.append_assoc]
    have hparse2 := (parseUrl_built _ c.protocol hproto _ hs).trans
      (parseAuthorityAndPath_built (some c.protocol) (some a) c.host
        (toString c.port) (pathTail ++ ext.data) none
        (fun a2 ha' => by injection ha' with h; subst h; exact ha3)
        hhostChars hportNe hportDig hcombSafe
        (fun q hq' => Option.noConfusion hq'))
    simp only [Couch.CouchClient]
    rw [setUrl_parsed _ _ c.protocol c.host (toString c.port)
      (String.mk ('/' :: (pathTail ++ ext.data))) (some a) none _ hparse2
      hprotoNe hhostNe hportStrNe hpnNe]
    have ha2m : ':' ∈ a.data := by simpa using ha2
    simp only [Couch.setCredentials, Couch.argTruthy, JS.stringToStringBase64,
      JS.propSet]
    simp [Couch.Client.mk.injEq, hportRound, hmethod, hct, hpe2, ha1, ha2m, ha4,
      hcq]
  · -- credentials, non-empty query string
    have hgq : Couch.getQuery c none = "?" ++ JS.qsStringify c.query := by
      simp [Couch.getQuery, hq0]
    have hs : (c.protocol ++ "//" ++ c.authUrl ++ c.host ++ ":" ++
        toString c.port ++ c.path ++ ext ++ Couch.getQuery c none).data =
        c.protocol.data ++ '/' :: '/' ::
          ((a.data ++ '@' :: (c.host.data ++ ':' :: (toString c.port).data)) ++
            '/' :: ((pathTail ++ ext.data) ++
              '?' :: (JS.qsStringify c.query).data)) := by
      rw [hgq, ha1, hpathStr]
      simp [String.data_append, dataMk, d2, d3, d0, d4, d5, List.append_assoc]
    have hparse2 := (parseUrl_built _ c.protocol hproto _ hs).trans
      (parseAuthorityAndPath_built (some c.protocol) (some a) c.host
        (toString c.port) (pathTail ++ ext.data) (some (JS.qsStringify c.query))
        (fun a2 ha' => by injection ha' with h; subst h; exact ha3)
        hhostChars hportNe hportDig hcombSafe
        (fun q hq' => by
          injection hq' with h
          subst h
          intro x hx
          simpa using List.all_eq_true.mp hqSafe x hx))
    simp only [Couch.CouchClient]
    rw [setUrl_parsed _ _ c.protocol c.host (toString c.port)
      (String.mk ('/' :: (pathTail ++ ext.data))) (some a)
      (some (JS.qsStringify c.query)) _ hparse2
      hprotoNe hhostNe hportStrNe hpnNe]
    have ha2m : ':' ∈ a.data := by simpa using ha2
    simp only [Couch.setCredentials, Couch.argTruthy, JS.stringToStringBase64,
      JS.propSet]
    simp [Couch.Client.mk.injEq, hportRound, hmethod, hct, hpe2, ha1, ha2m, ha4,
      hq0, hqRound]

/-- Appending the empty string changes nothing. -/
theorem strAppendEmpty (s : String) : s ++ "" = s :=
  strOfDataEq _ _ (by rw [String.data_append]; simp)

/-- Members of the encoded-segment list are safe path characters. -/
theorem encMapSafe (segs : List String) :
    ∀ s ∈ segs.map JS.encodeURIComponent, ∀ x ∈ s.data,
      x ≠ '/' ∧ x ≠ '?' ∧ x ≠ '#' := by
  intro s hs x hx
  obtain ⟨s0, hs0, rfl⟩ := List.mem_map.mp hs
  exact encodeURIComponent_safe s0 x hx

/-- The empty string has no characters. -/
theorem emptyNoChars : ∀ x ∈ ("" : String).data, x ≠ '/' ∧ x ≠ '?' ∧ x ≠ '#' := by
  intro x hx
  exact absurd hx (List.not_mem_nil x)

/-- C8: on a well-formed client, resource percent-encodes every
segment as a whole (the encoded text never contains a slash, so no
extra path boundary can arise), joins the encoded segments with
slashes, and appends them to the current path with exactly one
separating slash; with zero segments the constructed client equals the
original in every field. -/
theorem C8_resource_appends (c : Couch.Client) (hw : Couch.wellFormed c)
    (segs : List String) (hne : segs ≠ []) :
    Couch.resource c segs = Except.ok { c with path := (c.path ++
      (if Couch.lastChar c.path = some '/' then "" else "/") ++
      Couch.joinWith "/" (segs.map JS.encodeURIComponent)) } ∧
    Couch.resource c [] = Except.ok c ∧
    (∀ s : String, ∀ x ∈ (JS.encodeURIComponent s).data, x ≠ '/') := by
  refine ⟨?_, ?_, fun s x hx => (encodeURIComponent_safe s x hx).1⟩
  · by_cases hl : Couch.lastChar c.path = some '/'
    · simp only [Couch.resource, Couch.getPath, hl, ne_eq, not_true_eq_false,
        if_false, ite_false, reduceIte]
      rw [CouchClient_rebuilt c hw
        (Couch.joinWith "/" (segs.map JS.encodeURIComponent))
        (joinWith_safe _ (encMapSafe segs))]
      rw [strAppendEmpty c.path]
    · obtain ⟨s0, rest, rfl⟩ : ∃ s0 rest, segs = s0 :: rest := by
        cases segs with
        | nil => exact absurd rfl hne
        | cons s0 rest => exact ⟨s0, rest, rfl⟩
      simp only [Couch.resource, Couch.getPath, hl, ne_eq, not_false_eq_true,
        if_true, ite_true, reduceIte]
      rw [CouchClient_rebuilt c hw
        (Couch.joinWith "/" ("" :: (s0 :: rest).map JS.encodeURIComponent))
        (joinWith_safe _ (by
          intro s hs x hx
          rcases List.mem_cons.mp hs with rfl | hs
          · exact emptyNoChars x hx
          · exact encMapSafe (s0 :: rest) s hs x hx))]
      have hpeq : c.path ++
          Couch.joinWith "/" ("" :: (s0 :: rest).map JS.encodeURIComponent) =
          c.path ++ "/" ++
            Couch.joinWith "/" ((s0 :: rest).map JS.encodeURIComponent) := by
        apply strOfDataEq
        simp only [List.map_cons, Couch.joinWith, String.data_append]
        simp
      rw [hpeq]
  · by_cases hl : Couch.lastChar c.path = some '/'
    · simp only [Couch.resource, Couch.getPath, hl, ne_eq, not_true_eq_false,
        if_false, ite_false, reduceIte, List.map_nil]
      rw [show Couch.joinWith "/" ([] : List String) = "" from rfl]
      rw [CouchClient_rebuilt c hw "" (fun x hx => ⟨(emptyNoChars x hx).2.1,
        (emptyNoChars x hx).2.2⟩)]
      rw [strAppendEmpty]
    · simp only [Couch.resource, Couch.getPath, hl, ne_eq, not_false_eq_true,
        if_true, ite_true, reduceIte, List.map_nil]
      rw [show Couch.joinWith "/" ("" :: ([] : List String)) = "" from rfl]
      rw [CouchClient_rebuilt c hw "" (fun x hx => ⟨(emptyNoChars x hx).2.1,
        (emptyNoChars x hx).2.2⟩)]
      rw [strAppendEmpty]

/-- C8, witness: the example of the specification on a well-formed
client with path /base: two segments, one holding a space, extend the
path to /base/a/b%20c, and the zero-segment call copies the client. -/
theorem C8_resource_appends_witness :
    Couch.wellFormed Couch.exampleBaseClient ∧
    (["a", "b c"] : List String) ≠ [] ∧
    Couch.resource Couch.exampleBaseClient ["a", "b c"] =
      Except.ok { Couch.exampleBaseClient with path := "/base/a/b%20c" } ∧
    Couch.resource Couch.exampleBaseClient [] = Except.ok Couch.exampleBaseClient := by
  have hwf : Couch.wellFormed Couch.exampleBaseClient :=
    ⟨Or.inl rfl, rfl, rfl, by decide, by decide, by decide, by decide, by decide,
      by decide, by decide, by decide, by decide, by decide, Or.inl ⟨rfl, rfl⟩⟩
  have h := C8_resource_appends Couch.exampleBaseClient hwf ["a", "b c"]
    (by decide)
  refine ⟨hwf, by decide, ?_, h.2.1⟩
  rw [h.1]
  decide
